import Mathlib

/-!
# A shallow embedding of the MikroValid validator

This file embeds the validation engine and the schema-inference engine of
`src/domain/MikroValid.ts` (the current class, lines 1-562) into Lean 4 and
proves properties of the embedding corresponding to the specification's
claims.

Modelling conventions:

* JavaScript JSON-like runtime values are modelled by the inductive type
  `Js` below.  Numbers are modelled as integers plus a separate `nan`
  constructor (floating point width plays no role in any of the code paths
  under study); `RegExp` objects are modelled opaquely by their `test`
  behaviour as a `String → Bool` function.
* Property access `v[k]` is `jsGet v k`, returning `Js.undefined` when absent.
  Character indexing into primitive strings (`'ab'['0'] === 'a'`) is not
  modelled (`jsGet` on a string returns `undefined`); no schema or input in the
  properties under study indexes into a string.  Property access on
  `null`/`undefined` (a TypeError in JavaScript) likewise returns `undefined`;
  the code only performs such accesses on values it has already guarded.
* Object key enumeration (`Object.keys`, `for … in`) is modelled by
  `objKeys`, preserving insertion order of the association list.  The
  JavaScript reordering of integer-like keys is not modelled; no key used
  in the claims is integer-like.
* The two reachable exception sites are modelled with `Except String`:
  `test` throwing `'Missing input!'` on a falsy input, and the `TypeError`
  raised inside `areRequiredKeysPresent` when `Object.keys` is applied to
  `null` (or `.every` is invoked on a truthy non-array `required` value).
  Other JavaScript coercion corners (e.g. calling `.toString()` on `null`,
  numeric coercion of non-numeric constraint values) lie outside the typed
  interface `src/interfaces/MikroValid.ts` and are totalised with the
  documented conventions at each definition.
* The `isSilent` flag and `console.warn` diagnostics affect no returned
  value and are not modelled.
-/

set_option linter.unusedVariables false

namespace MikroValid

/-- A JavaScript JSON-like runtime value.  `regexp` models a `RegExp`
object by its `test` behaviour. -/
inductive Js where
  | null
  | undefined
  | bool (b : Bool)
  | num (n : Int)
  | nan
  | str (s : String)
  | arr (elems : List Js)
  | obj (fields : List (String × Js))
  | regexp (test : String → Bool)

mutual

/-- A size measure on `Js` used for termination of the recursive walks. -/
def Js.size : Js → Nat
  | .arr xs => 1 + sizeElems xs
  | .obj fs => 1 + sizeFields fs
  | _ => 1

def sizeElems : List Js → Nat
  | [] => 0
  | x :: t => 1 + Js.size x + sizeElems t

def sizeFields : List (String × Js) → Nat
  | [] => 0
  | (_, v) :: t => 1 + Js.size v + sizeFields t

end

theorem Js.size_pos (v : Js) : 0 < v.size := by
  cases v <;> simp only [Js.size] <;> omega

/-- JavaScript truthiness. -/
def truthy : Js → Bool
  | .null => false
  | .undefined => false
  | .bool b => b
  | .num n => n != 0
  | .nan => false
  | .str s => s ≠ ""
  | .arr _ => true
  | .obj _ => true
  | .regexp _ => true

/-- `typeof` for the modelled values. -/
def jsTypeof : Js → String
  | .null => "object"
  | .undefined => "undefined"
  | .bool _ => "boolean"
  | .num _ => "number"
  | .nan => "number"
  | .str _ => "string"
  | .arr _ => "object"
  | .obj _ => "object"
  | .regexp _ => "object"

/-- `isArray` (source line 392): `Array.isArray`. -/
def isArray : Js → Bool
  | .arr _ => true
  | _ => false

/-- `isObject` (source line 379): not `null`, not an array, `typeof` object,
and `Object.prototype.toString.call` yields `[object Object]` — i.e. a plain
data object.  `RegExp` (and other exotic built-ins) fail the last test. -/
def isObject : Js → Bool
  | .obj _ => true
  | _ => false

/-- `Object.keys` / `for … in` enumeration.  Primitive strings expose their
index keys; other primitives expose none. -/
def objKeys : Js → List String
  | .obj fs => fs.map Prod.fst
  | .arr xs => (List.range xs.length).map (fun i => toString i)
  | .str s => (List.range s.length).map (fun i => toString i)
  | _ => []

def decDigitVal (c : Char) : Option Nat :=
  if '0' ≤ c && c ≤ '9' then some (c.toNat - '0'.toNat) else none

def keyToIndexAux : List Char → Nat → Option Nat
  | [], acc => some acc
  | c :: t, acc =>
    match decDigitVal c with
    | some d => keyToIndexAux t (acc * 10 + d)
    | none => none

/-- Interpret a property name as an array index (all-decimal-digit names).
Models JavaScript indexed access into arrays. -/
def keyToIndex (s : String) : Option Nat :=
  match s.data with
  | [] => none
  | l => keyToIndexAux l 0

/-- Property access `v[k]`.  See the module docstring for the conventions on
strings and on `null`/`undefined`. -/
def jsGet (v : Js) (k : String) : Js :=
  match v with
  | .obj fs => ((fs.find? (fun p => p.1 == k)).map Prod.snd).getD .undefined
  | .arr xs =>
    match keyToIndex k with
    | some i => xs.getD i .undefined
    | none => .undefined
  | _ => .undefined

/-- Field update `v[k] = w` on objects, preserving insertion position on
overwrite (JavaScript semantics); a no-op on non-objects. -/
def setField : List (String × Js) → String → Js → List (String × Js)
  | [], k, w => [(k, w)]
  | (k', v') :: t, k, w =>
    if k' == k then (k', w) :: t else (k', v') :: setField t k w

def objSet (v : Js) (k : String) (w : Js) : Js :=
  match v with
  | .obj fs => .obj (setField fs k w)
  | _ => v

theorem size_of_found {fs : List (String × Js)} {k : String} {p : String × Js}
    (h : fs.find? (fun q => q.1 == k) = some p) : p.2.size < (Js.obj fs).size := by
  induction fs with
  | nil => simp [List.find?] at h
  | cons hd t ih =>
    rw [List.find?] at h
    by_cases hc : hd.1 == k
    · simp [hc] at h
      subst h
      simp only [Js.size, sizeFields]
      omega
    · simp [hc] at h
      have := ih h
      simp only [Js.size, sizeFields] at this ⊢
      omega

theorem size_of_getD {xs : List Js} {i : Nat} (h : i < xs.length) :
    (xs.getD i Js.undefined).size < (Js.arr xs).size := by
  induction xs generalizing i with
  | nil => simp at h
  | cons hd t ih =>
    cases i with
    | zero =>
      simp only [List.getD_cons_zero, Js.size, sizeElems]
      omega
    | succ j =>
      have hj : j < t.length := by simpa using h
      have := ih hj
      simp only [List.getD_cons_succ]
      simp only [Js.size, sizeElems] at this ⊢
      omega

/-- `jsGet` either misses (returning `undefined`) or returns a strictly smaller
value; the key termination fact for the recursive walks. -/
theorem jsGet_undef_or_size_lt (v : Js) (k : String) :
    jsGet v k = Js.undefined ∨ (jsGet v k).size < v.size := by
  cases v with
  | obj fs =>
    cases hf : fs.find? (fun p => p.1 == k) with
    | none => left; simp [jsGet, hf]
    | some p =>
      right
      have := size_of_found hf
      simpa [jsGet, hf] using this
  | arr xs =>
    cases hn : keyToIndex k with
    | none => left; simp [jsGet, hn]
    | some i =>
      by_cases hi : i < xs.length
      · right
        have := size_of_getD hi
        simpa [jsGet, hn] using this
      · left
        simp [jsGet, hn, List.getD_eq_getElem?_getD, List.getElem?_eq_none (Nat.le_of_not_lt hi)]
  | null => left; rfl
  | undefined => left; rfl
  | bool b => left; rfl
  | num n => left; rfl
  | nan => left; rfl
  | str s => left; rfl
  | regexp f => left; rfl

theorem truthy_jsGet_size_lt {v : Js} {k : String} (h : truthy (jsGet v k) = true) :
    (jsGet v k).size < v.size := by
  rcases jsGet_undef_or_size_lt v k with h' | h'
  · rw [h'] at h; simp [truthy] at h
  · exact h'

theorem jsGet_size_le (v : Js) (k : String) : (jsGet v k).size ≤ v.size := by
  rcases jsGet_undef_or_size_lt v k with h | h
  · rw [h]
    exact v.size_pos
  · exact Nat.le_of_lt h

/-- A single-quote character as a string (used in the error messages). -/
def sq : String := "\x27"

/-- An element as rendered by `Array.prototype.join` (`null`/`undefined`
render empty; nested arrays, which join recursively in JavaScript, do not
occur in the string lists being joined here and render empty). -/
def arrayJoinElem : Js → String
  | .null => ""
  | .undefined => ""
  | .bool b => if b then "true" else "false"
  | .num n => toString n
  | .nan => "NaN"
  | .str s => s
  | .arr _ => ""
  | .obj _ => "[object Object]"
  | .regexp _ => ""

/-- `elems.join(sep)`. -/
def jsJoin (sep : String) (elems : List Js) : String :=
  String.intercalate sep (elems.map arrayJoinElem)

/-- `String(v)` / `v.toString()` string conversion.  In JavaScript
`null.toString()`/`undefined.toString()` throw; they are unreachable behind
the `isDefined` guards and totalised here as `String(v)` would render them.
`RegExp` values render as their source text, which is not modelled. -/
def jsToStr : Js → String
  | .null => "null"
  | .undefined => "undefined"
  | .bool b => if b then "true" else "false"
  | .num n => toString n
  | .nan => "NaN"
  | .str s => s
  | .arr xs => String.intercalate "," (xs.map arrayJoinElem)
  | .obj _ => "[object Object]"
  | .regexp _ => ""

/-- The numeric value of a constraint field (`minLength`, `maxValue`, …).
The typed interface constrains these to numbers; non-numeric constraint
values (JavaScript would coerce) are not modelled. -/
def jsNum : Js → Int
  | .num n => n
  | _ => 0

/-- `isCorrectType` (source line 361): `switch` over the expected type tag;
an unrecognised tag falls through to `undefined`, which the caller treats
as a failure. -/
def isCorrectType (expected : Js) (input : Js) : Bool :=
  match expected with
  | .str "string" => match input with | .str _ => true | _ => false
  | .str "number" => match input with | .num _ => true | _ => false
  | .str "boolean" => match input with | .bool _ => true | _ => false
  | .str "object" => isObject input
  | .str "array" => isArray input
  | _ => false

def isAsciiDigit (c : Char) : Bool := '0' ≤ c && c ≤ '9'

def isAsciiAlpha (c : Char) : Bool := ('a' ≤ c && c ≤ 'z') || ('A' ≤ c && c ≤ 'Z')

def isAlphaNumChar (c : Char) : Bool := isAsciiAlpha c || isAsciiDigit c

def isHexChar (c : Char) : Bool :=
  isAsciiDigit c || ('a' ≤ c && c ≤ 'f') || ('A' ≤ c && c ≤ 'F')

/-- The character class `[a-zA-Z0-9._-]` of the email local part. -/
def isEmailLocalChar (c : Char) : Bool :=
  isAlphaNumChar c || c == '.' || c == '_' || c == '-'

/-- The character class `[a-zA-Z0-9.-]` of the email domain part. -/
def isEmailDomainChar (c : Char) : Bool :=
  isAlphaNumChar c || c == '.' || c == '-'

/-- The JavaScript `\s` whitespace class: ASCII whitespace, NO-BREAK SPACE,
OGHAM SPACE MARK, the EN QUAD through HAIR SPACE range, LINE SEPARATOR,
PARAGRAPH SEPARATOR, NARROW NO-BREAK SPACE, MEDIUM MATHEMATICAL SPACE,
IDEOGRAPHIC SPACE and ZERO WIDTH NO-BREAK SPACE. -/
def isJsWhitespace (c : Char) : Bool :=
  c == ' ' || c == '\t' || c == '\n' || c == '\r' ||
  c == '\x0b' || c == '\x0c' ||
  c.toNat == 0xa0 || c.toNat == 0x1680 ||
  (0x2000 <= c.toNat && c.toNat <= 0x200a) ||
  c.toNat == 0x2028 || c.toNat == 0x2029 || c.toNat == 0x202f ||
  c.toNat == 0x205f || c.toNat == 0x3000 || c.toNat == 0xfeff

/-- `^-?\d+(\.\d+)?$`. -/
def numericFormat (l : List Char) : Bool :=
  let l := match l with
    | '-' :: t => t
    | t => t
  let intPart := l.takeWhile isAsciiDigit
  let rest := l.drop intPart.length
  !intPart.isEmpty &&
    (match rest with
     | [] => true
     | '.' :: frac => !frac.isEmpty && frac.all isAsciiDigit
     | _ => false)

/-- `^\d{4}-\d{2}-\d{2}$`. -/
def dateFormat (l : List Char) : Bool :=
  match l with
  | [y1, y2, y3, y4, h1, m1, m2, h2, d1, d2] =>
    [y1, y2, y3, y4, m1, m2, d1, d2].all isAsciiDigit && h1 == '-' && h2 == '-'
  | _ => false

/-- `^#?([a-f0-9]{6}|[a-f0-9]{3})$` with the `i` flag. -/
def hexColorFormat (l : List Char) : Bool :=
  let l := match l with
    | '#' :: t => t
    | t => t
  (l.length == 6 || l.length == 3) && l.all isHexChar

/-- The trailing `\.[a-zA-Z]{2,4}$` of the email pattern. -/
def emailTld (t : List Char) : Bool :=
  2 ≤ t.length && t.length ≤ 4 && t.all isAsciiAlpha

/-- The domain piece `[a-zA-Z0-9.-]+\.[a-zA-Z]{2,4}$`: some `.` splits the
domain into a non-empty class-conforming middle and a 2–4 letter TLD. -/
def emailDomain (dom : List Char) : Bool :=
  (List.range dom.length).any (fun i =>
    dom.getD i ' ' == '.' && decide (0 < i) &&
      (dom.take i).all isEmailDomainChar && emailTld (dom.drop (i + 1)))

/-- `^[a-zA-Z0-9._-]+@[a-zA-Z0-9.-]+\.[a-zA-Z]{2,4}$`. -/
def emailFormat (l : List Char) : Bool :=
  let localPart := l.takeWhile (fun c => c != '@')
  match l.drop localPart.length with
  | '@' :: dom =>
    !localPart.isEmpty && localPart.all isEmailLocalChar && emailDomain dom
  | _ => false

/-- `^(https?):\/\/[^\s$.?#].[^\s]*$`: the scheme prefix, one character
outside `\s$.?#`, one character that is not a line terminator (the regex
dot), then non-whitespace to the end. -/
def urlFormat (s : String) : Bool :=
  let rest :=
    if s.startsWith "https://" then some (s.drop 8)
    else if s.startsWith "http://" then some (s.drop 7)
    else none
  match rest with
  | none => false
  | some r =>
    match r.toList with
    | c1 :: c2 :: tail =>
      !isJsWhitespace c1 && c1 != '$' && c1 != '.' && c1 != '?' && c1 != '#' &&
        c2 != '\n' && c2 != '\r' && c2 != ' ' && c2 != ' ' &&
        tail.all (fun c => !isJsWhitespace c)
    | _ => false

/-- `isCorrectFormat` (source line 407): `switch` over the format name,
each case an anchored regular expression tested against the string form of
the input; an unrecognised format falls through to `undefined`, which the
caller treats as a failure. -/
def isCorrectFormat (expected : Js) (input : Js) : Bool :=
  let s := jsToStr input
  match expected with
  | .str "alphanumeric" => !s.toList.isEmpty && s.toList.all isAlphaNumChar
  | .str "numeric" => numericFormat s.toList
  | .str "email" => emailFormat s.toList
  | .str "date" => dateFormat s.toList
  | .str "url" => urlFormat s
  | .str "hexColor" => hexColorFormat s.toList
  | _ => false

/-- `isMinimumLength` (source line 433): array length or string-form length. -/
def isMinimumLength (minLength : Js) (input : Js) : Bool :=
  match input with
  | .arr xs => jsNum minLength ≤ (xs.length : Int)
  | v => jsNum minLength ≤ ((jsToStr v).length : Int)

/-- `isMaximumLength` (source line 441). -/
def isMaximumLength (maxLength : Js) (input : Js) : Bool :=
  match input with
  | .arr xs => (xs.length : Int) ≤ jsNum maxLength
  | v => ((jsToStr v).length : Int) ≤ jsNum maxLength

/-- `isMinimumValue` (source line 449): inclusive numeric comparison.
Comparisons involving `NaN` or non-numbers are `false` (JavaScript
comparisons on `NaN` are `false`; other coercions are outside the typed
interface and not modelled). -/
def isMinimumValue (minValue : Js) (input : Js) : Bool :=
  match minValue, input with
  | .num a, .num b => a ≤ b
  | _, _ => false

/-- `isMaximumValue` (source line 456). -/
def isMaximumValue (maxValue : Js) (input : Js) : Bool :=
  match maxValue, input with
  | .num a, .num b => b ≤ a
  | _, _ => false

/-- `matchesPattern` (source line 463): applies the caller-supplied
`RegExp` to the string form of the value.  The interface types
`matchesPattern` as `RegExp`; `new RegExp` on other values is not
modelled. -/
def matchesPattern (pattern : Js) (input : Js) : Bool :=
  match pattern with
  | .regexp f => f (jsToStr input)
  | _ => false

/-- The `{ success, error? }` record returned by `validateInput`. -/
structure ValidationResult where
  success : Bool
  error : Option String
deriving DecidableEq, Repr

/-- One entry of the `checks` list inside `validateInput`: the (evaluated)
condition, the (evaluated) validator and the failure label. -/
structure Check where
  cond : Bool
  valid : Bool
  error : String
deriving DecidableEq, Repr

/-- The ordered `checks` list of `validateInput` (source lines 307-343). -/
def checks (properties m : Js) : List Check :=
  [⟨truthy (jsGet properties "type"), isCorrectType (jsGet properties "type") m,
    "Invalid type"⟩,
   ⟨truthy (jsGet properties "format"), isCorrectFormat (jsGet properties "format") m,
    "Invalid format"⟩,
   ⟨truthy (jsGet properties "minLength"), isMinimumLength (jsGet properties "minLength") m,
    "Length too short"⟩,
   ⟨truthy (jsGet properties "maxLength"), isMaximumLength (jsGet properties "maxLength") m,
    "Length too long"⟩,
   ⟨truthy (jsGet properties "minValue"), isMinimumValue (jsGet properties "minValue") m,
    "Value too small"⟩,
   ⟨truthy (jsGet properties "maxValue"), isMaximumValue (jsGet properties "maxValue") m,
    "Value too large"⟩,
   ⟨truthy (jsGet properties "matchesPattern"), matchesPattern (jsGet properties "matchesPattern") m,
    "Pattern does not match"⟩]

/-- The `for (const check of checks)` loop of `validateInput`: the first
check whose condition holds and whose validator fails short-circuits. -/
def runChecks : List Check → ValidationResult
  | [] => ⟨true, none⟩
  | c :: rest => if c.cond && !c.valid then ⟨false, some c.error⟩ else runChecks rest

/-- `validateInput` (source line 302).  A falsy `properties` value takes the
diagnostic-only `else` branch and is vacuously successful. -/
def validateInput (properties m : Js) : ValidationResult :=
  if truthy properties then runChecks (checks properties m)
  else ⟨true, none⟩

/-- A Leaf Result / Structural Error record (`Result` in the interface
declarations). -/
structure Res where
  key : String
  value : Js
  success : Bool
  error : String

/-- `validateProperty` (source line 285). -/
def validateProperty (key : String) (properties : Js) (value : Js) : Res :=
  let v := validateInput properties value
  ⟨key, value, v.success, v.error.getD ""⟩

/-- `isDefined` (source line 155): `!!value || value === ''`. -/
def isDefined (value : Js) : Bool :=
  match value with
  | .str _ => true
  | v => truthy v

/-- `propertyKey.items != null` (loose inequality: excludes both `null` and
`undefined`). -/
def itemsNotNull (propertyKey : Js) : Bool :=
  match jsGet propertyKey "items" with
  | .null => false
  | .undefined => false
  | _ => true

def arrayElems : Js → List Js
  | .arr xs => xs
  | _ => []

/-- `handleValidation` (source line 209): one Leaf Result for the key
itself; then, for an array input with an `items` schema, one Leaf Result
per element; or, for an object input, one Leaf Result per own key against
the same-named child schema. -/
def handleValidation (key : String) (inputKey propertyKey : Js) (results : List Res) :
    List Res :=
  let results := results ++ [validateProperty key propertyKey inputKey]
  if isArray inputKey && itemsNotNull propertyKey then
    results ++ (arrayElems inputKey).map
      (fun arrayItem => validateProperty key (jsGet propertyKey "items") arrayItem)
  else if isObject inputKey then
    results ++ (objKeys inputKey).map
      (fun innerKey => validateProperty innerKey (jsGet propertyKey innerKey) (jsGet inputKey innerKey))
  else results

/-- `schema?.required || []` (source lines 112 and 130).  A truthy
non-array `required` value would flow into `.every` and raise a
`TypeError`; that exception is surfaced here, at extraction. -/
def requiredList (v : Js) : Except String (List Js) :=
  match jsGet v "required" with
  | .arr xs => .ok xs
  | r =>
    if truthy r then .error "TypeError: requiredKeys.every is not a function"
    else .ok []

/-- `keys.includes(v)` for a `Js` element against a string list: strict
equality holds only for an equal string. -/
def jsInStrList (v : Js) (keys : List String) : Bool :=
  match v with
  | .str s => keys.contains s
  | _ => false

/-- `requiredKeys.includes(key)` for a string key. -/
def requiredContains (requiredKeys : List Js) (key : String) : Bool :=
  requiredKeys.any (fun v => match v with | .str s => s == key | _ => false)

/-- `areRequiredKeysPresent` (source line 278).  The parameter default
(`input = []`) applies only to `undefined`; `Object.keys(null)` throws,
but only once `.every` actually invokes its callback, i.e. when
`requiredKeys` is non-empty. -/
def areRequiredKeysPresent (requiredKeys : List Js) (input : Js) : Except String Bool :=
  let inp := match input with
    | .undefined => Js.arr []
    | v => v
  if requiredKeys.isEmpty then .ok true
  else match inp with
    | .null => .error "TypeError: Cannot convert undefined or null to object"
    | v => .ok (requiredKeys.all (fun k => jsInStrList k (objKeys v)))

/-- `findNonOverlappingElements` (source line 271), at string lists. -/
def findNonOverlappingElements (target truth : List String) : List String :=
  target.filter (fun v => !truth.contains v)

/-- `findNonOverlappingElements(schema, inputKeys)` as used by the required
check: the `target` elements are the (Js-valued) required names. -/
def missingRequiredKeys (requiredKeys : List Js) (inputKeys : List String) : List Js :=
  requiredKeys.filter (fun v => !jsInStrList v inputKeys)

/-- The Structural Error pushed by `checkForRequiredKeysErrors`
(source lines 169-176). -/
def requiredKeyError (requiredKeys : List Js) (input : Js) : Res :=
  let inputKeys := if truthy input then objKeys input else []
  let missingKeys := missingRequiredKeys requiredKeys inputKeys
  ⟨"", input, false,
    "Missing the required key: " ++ sq ++ jsJoin ", " missingKeys ++ sq ++ "!"⟩

/-- `checkForRequiredKeysErrors` (source line 163). -/
def checkForRequiredKeysErrors (schema : List Js) (input : Js) (errors : List Res) :
    Except String (List Res) :=
  match areRequiredKeysPresent schema input with
  | .error e => .error e
  | .ok true => .ok errors
  | .ok false => .ok (errors ++ [requiredKeyError schema input])

/-- `checkForDisallowedProperties` (source line 185).  The pushed error's
`key` is the comma-joined property-key list (JavaScript array-to-string
coercion of `${propertyKeys}`) and its `value` the input-key list. -/
def checkForDisallowedProperties (inputKeys propertyKeys : List String)
    (errors : List Res) (isAdditionalsOk : Bool) : List Res :=
  if !isAdditionalsOk then
    let additionals := findNonOverlappingElements inputKeys propertyKeys
    if 0 < additionals.length then
      errors ++ [⟨String.intercalate "," propertyKeys, Js.arr (inputKeys.map Js.str), false,
        "Has additional (disallowed) properties: " ++ sq ++
          String.intercalate ", " additionals ++ sq ++ "!"⟩]
    else errors
  else errors

/-- `schema?.additionalProperties ?? true`, reduced to the truthiness the
caller tests (`if (!isAdditionalsOk)`). -/
def additionalsOk (v : Js) : Bool :=
  match jsGet v "additionalProperties" with
  | .undefined => true
  | .null => true
  | w => truthy w

/-- `getNestedObjects` (source line 262): the filter callback returns the
key itself whenever the *parent* is a plain object, so it keeps every
non-empty key of an object and nothing of a non-object. -/
def getNestedObjects (item : Js) : List String :=
  (objKeys item).filter (fun key => if isObject item then key ≠ "" else false)

mutual

/-- `validate` (source line 105): the main recursive walk.  Resolves this
level's `additionalProperties` and `required`, runs the required and
disallowed-properties checks, then iterates the schema node's keys
(`validateLoop`). -/
def validate (schema input : Js) (results errors : List Res) :
    Except String (List Res × List Res) :=
  let isAdditionalsOk := additionalsOk schema
  match requiredList schema with
  | .error e => .error e
  | .ok requiredKeys =>
    match checkForRequiredKeysErrors requiredKeys input errors with
    | .error e => .error e
    | .ok errors1 =>
      let errors2 :=
        checkForDisallowedProperties (objKeys input) (objKeys schema) errors1 isAdditionalsOk
      validateLoop schema input requiredKeys (objKeys schema) results errors2
termination_by (schema.size, 3, 0)
decreasing_by
  apply Prod.Lex.right
  apply Prod.Lex.left
  omega

/-- The `for (const key in schema)` loop body of `validate`
(source lines 122-147). -/
def validateLoop (schema input : Js) (requiredKeys : List Js) (keys : List String)
    (results errors : List Res) : Except String (List Res × List Res) :=
  match keys with
  | [] => .ok (results, errors)
  | key :: rest =>
    let isKeyRequired := requiredContains requiredKeys key && key != "required"
    let propertyKey := jsGet schema key
    let inputKey := jsGet input key
    let isInnerAdditionalsOk := additionalsOk propertyKey
    let step1 : Except String (List Res) :=
      if isKeyRequired then
        match requiredList propertyKey with
        | .error e => .error e
        | .ok innerRequired => checkForRequiredKeysErrors innerRequired inputKey errors
      else .ok errors
    match step1 with
    | .error e => .error e
    | .ok errors1 =>
      if isDefined inputKey then
        let results1 := handleValidation key inputKey propertyKey results
        let errors2 :=
          checkForDisallowedProperties (objKeys inputKey) (objKeys propertyKey) errors1
            isInnerAdditionalsOk
        match handleNestedObject inputKey propertyKey results1 errors2 with
        | .error e => .error e
        | .ok (results2, errors3) => validateLoop schema input requiredKeys rest results2 errors3
      else validateLoop schema input requiredKeys rest results errors1
termination_by (schema.size, 2, keys.length)
decreasing_by
  · rcases Nat.lt_or_ge (jsGet schema key).size schema.size with h | h
    · exact Prod.Lex.left _ _ h
    · have he : (jsGet schema key).size = schema.size :=
        Nat.le_antisymm (jsGet_size_le schema key) h
      rw [he]
      apply Prod.Lex.right
      exact Prod.Lex.left _ _ (by omega)
  · apply Prod.Lex.right
    apply Prod.Lex.right
    simp
  · apply Prod.Lex.right
    apply Prod.Lex.right
    simp

/-- `handleNestedObject` (source line 242). -/
def handleNestedObject (inputKey propertyKey : Js) (results errors : List Res) :
    Except String (List Res × List Res) :=
  if isObject inputKey then
    nestedLoop inputKey propertyKey (getNestedObjects inputKey) results errors
  else .ok (results, errors)
termination_by (propertyKey.size, 1, 0)
decreasing_by
  apply Prod.Lex.right
  apply Prod.Lex.left
  omega

/-- The `for (const nested of nestedObjects)` loop body of
`handleNestedObject` (source lines 251-255): recurse into every
truthy sub-schema/sub-input pair, threading the shared accumulators. -/
def nestedLoop (inputKey propertyKey : Js) (nested : List String)
    (results errors : List Res) : Except String (List Res × List Res) :=
  match nested with
  | [] => .ok (results, errors)
  | n :: rest =>
    let nextSchema := jsGet propertyKey n
    let nextInput := jsGet inputKey n
    if h : truthy nextSchema && truthy nextInput then
      match validate nextSchema nextInput results errors with
      | .error e => .error e
      | .ok (results1, errors1) => nestedLoop inputKey propertyKey rest results1 errors1
    else nestedLoop inputKey propertyKey rest results errors
termination_by (propertyKey.size, 0, nested.length)
decreasing_by
  · apply Prod.Lex.left
    exact truthy_jsGet_size_lt (by simp_all)
  · apply Prod.Lex.right
    apply Prod.Lex.right
    simp
  · apply Prod.Lex.right
    apply Prod.Lex.right
    simp

end

/-- `compileErrors` (source line 87): the structural errors followed by the
failed Leaf Results (the `flatMap` over non-array elements is the
identity). -/
def compileErrors (results errors : List Res) : List Res :=
  errors ++ results.filter (fun r => r.success == false)

/-- `isSuccessful` (source line 95). -/
def isSuccessful (results errors : List Res) : Bool :=
  results.all (fun r => r.success == true) && errors.length == 0

/-- The `{ errors, success }` record returned by `test`. -/
structure TestOutcome where
  errors : List Res
  success : Bool

/-- `test` (source line 68): throws `'Missing input!'` on a falsy input,
otherwise validates `schema.properties` against the input and aggregates. -/
def test (schema input : Js) : Except String TestOutcome :=
  if truthy input then
    match validate (jsGet schema "properties") input [] [] with
    | .error e => .error e
    | .ok (results, errors) =>
      let aggregatedErrors := compileErrors results errors
      .ok ⟨aggregatedErrors, isSuccessful results aggregatedErrors⟩
  else .error "Missing input!"

/-- `generatePropertySchema` (source line 550): `{type: typeof value}`,
plus `minLength: 1` for strings. -/
def generatePropertySchema (value : Js) : Js :=
  let t := jsTypeof value
  if t == "string" then Js.obj [("type", Js.str t), ("minLength", Js.num 1)]
  else Js.obj [("type", Js.str t)]

def isNull : Js → Bool
  | .null => true
  | _ => false

mutual

/-- `generateNestedObjectSchema` (source line 532).  The `required` array
collects every enumerated key; the source pushes keys one at a time before
assigning `schema[key]`, which is equivalent unless a sample key is itself
named `required` (the source then detaches or breaks the array; such
samples are outside the region under study). -/
def generateNestedObjectSchema (input : Js) : Js :=
  let ks := objKeys input
  gnosLoop input ks
    (Js.obj [("type", Js.str "object"), ("additionalProperties", Js.bool false),
      ("required", Js.arr (ks.map Js.str))])
termination_by (input.size, 1, 0)
decreasing_by
  apply Prod.Lex.right
  apply Prod.Lex.left
  omega

/-- The `for (const key in input)` loop of `generateNestedObjectSchema`:
plain non-null non-array objects recurse, everything else gets a primitive
property schema. -/
def gnosLoop (input : Js) (ks : List String) (schema : Js) : Js :=
  match ks with
  | [] => schema
  | key :: rest =>
    let value := jsGet input key
    let child :=
      if h : jsTypeof value == "object" && !isArray value && !isNull value then
        generateNestedObjectSchema value
      else generatePropertySchema value
    gnosLoop input rest (objSet schema key child)
termination_by (input.size, 0, ks.length)
decreasing_by
  · apply Prod.Lex.left
    rcases jsGet_undef_or_size_lt input key with hu | hs
    · simp only [value, hu, jsTypeof] at h
      simp at h
    · exact hs
  · apply Prod.Lex.right
    apply Prod.Lex.right
    simp

end

/-- `generateArraySchema` (source line 507): filters out falsy elements; if
the survivors share one `typeof`, infers `items` from the first survivor (a
nested object schema for plain objects, a primitive schema otherwise); a
type-mixed array keeps the bare `{type:'array'}` (plus a diagnostic). -/
def generateArraySchema (array : Js) : Js :=
  let cleanedArray := (arrayElems array).filter truthy
  match cleanedArray with
  | [] => Js.obj [("type", Js.str "array")]
  | firstElement :: _ =>
    if cleanedArray.all (fun element => jsTypeof element == jsTypeof firstElement) then
      if jsTypeof firstElement == "object" && !isArray firstElement then
        Js.obj [("type", Js.str "array"),
          ("items", generateNestedObjectSchema firstElement)]
      else
        Js.obj [("type", Js.str "array"), ("items", generatePropertySchema firstElement)]
    else Js.obj [("type", Js.str "array")]

/-- The per-value dispatch of `schemaFrom` (source lines 495-501): arrays,
then plain non-null objects, then primitives. -/
def schemaFromChild (value : Js) : Js :=
  if isArray value then generateArraySchema value
  else if jsTypeof value == "object" && !isNull value then
    generateNestedObjectSchema value
  else generatePropertySchema value

/-- `schemaFrom` (source line 488): every own key becomes required,
`additionalProperties` is `false`, and each value gets an array, nested
object, or primitive schema. -/
def schemaFrom (input : Js) : Js :=
  let ks := objKeys input
  Js.obj [
    ("properties", Js.obj (ks.map (fun key => (key, schemaFromChild (jsGet input key))))),
    ("additionalProperties", Js.bool false),
    ("required", Js.arr (ks.map Js.str))]

/-! ## Helper lemmas: the accumulators only grow -/

/-- Both components of a returned accumulator pair extend the accumulators
passed in. -/
def ExtendsFrom (results errors : List Res) (out : List Res × List Res) : Prop :=
  (∃ d, out.1 = results ++ d) ∧ (∃ d, out.2 = errors ++ d)

theorem extendsFrom_refl (results errors : List Res) :
    ExtendsFrom results errors (results, errors) :=
  ⟨⟨[], (List.append_nil _).symm⟩, ⟨[], (List.append_nil _).symm⟩⟩

theorem checkForDisallowedProperties_extends (inputKeys propertyKeys : List String)
    (errors : List Res) (ok : Bool) :
    ∃ d, checkForDisallowedProperties inputKeys propertyKeys errors ok = errors ++ d := by
  unfold checkForDisallowedProperties
  split
  · simp only []
    split
    · exact ⟨_, rfl⟩
    · exact ⟨[], (List.append_nil _).symm⟩
  · exact ⟨[], (List.append_nil _).symm⟩

theorem checkForRequiredKeysErrors_extends {req : List Js} {input : Js}
    {errs out : List Res} (h : checkForRequiredKeysErrors req input errs = .ok out) :
    ∃ d, out = errs ++ d := by
  unfold checkForRequiredKeysErrors at h
  rcases hr : areRequiredKeysPresent req input with e | b
  · rw [hr] at h
    cases h
  · rw [hr] at h
    cases b
    · simp only [Except.ok.injEq] at h
      exact ⟨_, h.symm⟩
    · simp only [Except.ok.injEq] at h
      exact ⟨[], by simp [← h]⟩

theorem handleValidation_extends (key : String) (inputKey propertyKey : Js)
    (results : List Res) :
    ∃ d, handleValidation key inputKey propertyKey results = results ++ d := by
  unfold handleValidation
  split
  · exact ⟨_, List.append_assoc _ _ _⟩
  · split
    · exact ⟨_, List.append_assoc _ _ _⟩
    · exact ⟨_, rfl⟩

theorem step1_extends {c : Prop} [Decidable c] {pk ik : Js} {errs out : List Res}
    (h : (if c then
            match requiredList pk with
            | Except.error e => Except.error e
            | Except.ok innerRequired => checkForRequiredKeysErrors innerRequired ik errs
          else Except.ok errs) = Except.ok out) : ∃ d, out = errs ++ d := by
  split at h
  · rcases hr : requiredList pk with e | innerRequired
    · rw [hr] at h
      cases h
    · rw [hr] at h
      exact checkForRequiredKeysErrors_extends h
  · cases h
    exact ⟨[], (List.append_nil _).symm⟩


theorem extendsFrom_compose {res errs mid1 mid2 : List Res} {out : List Res × List Res}
    (h : ExtendsFrom mid1 mid2 out) (h1 : ∃ d, mid1 = res ++ d) (h2 : ∃ d, mid2 = errs ++ d) :
    ExtendsFrom res errs out := by
  obtain ⟨⟨a, ha⟩, ⟨b, hb⟩⟩ := h
  obtain ⟨c, hc⟩ := h1
  obtain ⟨d, hd⟩ := h2
  exact ⟨⟨c ++ a, by rw [ha, hc, List.append_assoc]⟩,
         ⟨d ++ b, by rw [hb, hd, List.append_assoc]⟩⟩

theorem validateLoop_extends :
    ∀ (schema input : Js) (requiredKeys : List Js) (keys : List String)
      (results errors : List Res),
      ∀ out, validateLoop schema input requiredKeys keys results errors = .ok out →
        ExtendsFrom results errors out := by
  refine validateLoop.induct
    (fun schema input results errors =>
      ∀ out, validate schema input results errors = .ok out → ExtendsFrom results errors out)
    (fun schema input requiredKeys keys results errors =>
      ∀ out, validateLoop schema input requiredKeys keys results errors = .ok out →
        ExtendsFrom results errors out)
    (fun inputKey propertyKey results errors =>
      ∀ out, handleNestedObject inputKey propertyKey results errors = .ok out →
        ExtendsFrom results errors out)
    (fun inputKey propertyKey nested results errors =>
      ∀ out, nestedLoop inputKey propertyKey nested results errors = .ok out →
        ExtendsFrom results errors out)
    ?_ ?_ ?_ ?_ ?_ ?_ ?_ ?_ ?_ ?_ ?_ ?_ ?_ ?_
  case _ => -- 1: requiredList errors out
    intro schema input results errors e hre out hv
    rw [validate.eq_def] at hv
    simp only [hre] at hv
    cases hv
  case _ => -- 2: required-keys check errors out
    intro schema input results errors requiredKeys hre e hck out hv
    rw [validate.eq_def] at hv
    simp only [hre, hck] at hv
    cases hv
  case _ => -- 3: validate main path
    intro schema input results errors isAdditionalsOk requiredKeys hre errors1 hck errors2 ih out hv
    rw [validate.eq_def] at hv
    simp only [hre, hck] at hv
    refine extendsFrom_compose (ih out hv) ⟨[], (List.append_nil _).symm⟩ ?_
    obtain ⟨d, hd⟩ := checkForRequiredKeysErrors_extends hck
    obtain ⟨d', hd'⟩ :=
      checkForDisallowedProperties_extends (objKeys input) (objKeys schema) errors1 isAdditionalsOk
    refine ⟨d ++ d', ?_⟩
    show checkForDisallowedProperties (objKeys input) (objKeys schema) errors1 isAdditionalsOk =
      errors ++ (d ++ d')
    rw [hd', hd, List.append_assoc]
  case _ => -- 4: loop nil
    intro schema input requiredKeys results errors out hv
    rw [validateLoop.eq_1] at hv
    cases hv
    exact extendsFrom_refl _ _
  case _ => -- 5: loop, step1 errors out
    intro schema input requiredKeys results errors key rest isKeyRequired propertyKey
      inputKey step1 e hstep out hv
    rw [validateLoop.eq_def] at hv
    simp only [] at hv
    split at hv
    · cases hv
    · rename_i errors1 heq
      exact absurd (hstep.symm.trans heq) (by simp)
  case _ => -- 6: loop, nested handling errors out
    intro schema input requiredKeys results errors key rest isKeyRequired propertyKey inputKey
      isInnerAdditionalsOk step1 errors1 hstep hdef results1 errors2 e hne ih3 out hv
    rw [validateLoop.eq_def] at hv
    simp only [] at hv
    split at hv
    · rename_i e2 heq
      exact absurd (hstep.symm.trans heq) (by simp)
    · rename_i errors1b heq
      have heqv : errors1b = errors1 := by
        have h0 := hstep.symm.trans heq
        injection h0 with h0'
        exact h0'.symm
      rw [heqv] at heq hv
      rw [if_pos (show isDefined (jsGet input key) = true from hdef)] at hv
      split at hv
      · cases hv
      · rename_i r2 e3 heq2
        exact absurd (hne.symm.trans heq2) (by simp)
  case _ => -- 7: loop, full step
    intro schema input requiredKeys results errors key rest isKeyRequired propertyKey inputKey
      isInnerAdditionalsOk step1 errors1 hstep hdef results1 errors2 results2 errors3 hne ih3
      ih2 out hv
    rw [validateLoop.eq_def] at hv
    simp only [] at hv
    split at hv
    · rename_i e2 heq
      exact absurd (hstep.symm.trans heq) (by simp)
    · rename_i errors1b heq
      have heqv : errors1b = errors1 := by
        have h0 := hstep.symm.trans heq
        injection h0 with h0'
        exact h0'.symm
      rw [heqv] at heq hv
      rw [if_pos (show isDefined (jsGet input key) = true from hdef)] at hv
      split at hv
      · cases hv
      · rename_i r2b e3b heq2
        have hlink := hne.symm.trans heq2
        injection hlink with hp
        have h1 : results2 = r2b := congrArg Prod.fst hp
        have h2 : errors3 = e3b := congrArg Prod.snd hp
        rw [← h1, ← h2] at hv
        refine extendsFrom_compose (ih2 out hv) ?_ ?_
        · obtain ⟨⟨a, ha0⟩, _⟩ := ih3 (results2, errors3) hne
          have ha : results2 = results1 ++ a := ha0
          obtain ⟨b, hb⟩ := handleValidation_extends key inputKey propertyKey results
          refine ⟨b ++ a, ?_⟩
          rw [ha]
          show handleValidation key inputKey propertyKey results ++ a = results ++ (b ++ a)
          rw [hb, List.append_assoc]
        · obtain ⟨_, ⟨c, hc0⟩⟩ := ih3 (results2, errors3) hne
          have hc : errors3 = errors2 ++ c := hc0
          obtain ⟨b, hb⟩ := step1_extends heq
          obtain ⟨c2, hc2⟩ :=
            checkForDisallowedProperties_extends (objKeys inputKey) (objKeys propertyKey) errors1
              isInnerAdditionalsOk
          refine ⟨b ++ (c2 ++ c), ?_⟩
          rw [hc]
          show checkForDisallowedProperties (objKeys inputKey) (objKeys propertyKey) errors1
              isInnerAdditionalsOk ++ c = errors ++ (b ++ (c2 ++ c))
          rw [hc2, hb]
          simp [List.append_assoc]
  case _ => -- 8: loop, input key not defined
    intro schema input requiredKeys results errors key rest isKeyRequired propertyKey inputKey
      step1 errors1 hstep hdef ih2 out hv
    rw [validateLoop.eq_def] at hv
    simp only [] at hv
    split at hv
    · rename_i e2 heq
      exact absurd (hstep.symm.trans heq) (by simp)
    · rename_i errors1b heq
      have heqv : errors1b = errors1 := by
        have h0 := hstep.symm.trans heq
        injection h0 with h0'
        exact h0'.symm
      rw [heqv] at heq hv
      rw [if_neg (show ¬isDefined (jsGet input key) = true from hdef)] at hv
      refine extendsFrom_compose (ih2 out hv) ⟨[], (List.append_nil _).symm⟩ ?_
      exact step1_extends heq
  case _ => -- 9: handleNestedObject, object input
    intro inputKey propertyKey results errors hobj ih4 out hv
    rw [handleNestedObject.eq_def] at hv
    simp only [hobj, if_true] at hv
    exact ih4 out hv
  case _ => -- 10: handleNestedObject, non-object input
    intro inputKey propertyKey results errors hobj out hv
    rw [handleNestedObject.eq_def] at hv
    simp only [if_neg hobj] at hv
    cases hv
    exact extendsFrom_refl _ _
  case _ => -- 11: nested loop nil
    intro inputKey propertyKey results errors out hv
    rw [nestedLoop.eq_1] at hv
    cases hv
    exact extendsFrom_refl _ _
  case _ => -- 12: nested loop, validate errors out
    intro inputKey propertyKey results errors key rest nextSchema nextInput htr e hverr ih1 out hv
    rw [nestedLoop.eq_def] at hv
    simp only [] at hv
    rw [dif_pos (show (truthy (jsGet propertyKey key) && truthy (jsGet inputKey key)) = true
      from htr)] at hv
    split at hv
    · cases hv
    · rename_i r2 e3 heq
      exact absurd (hverr.symm.trans heq) (by simp)
  case _ => -- 13: nested loop, validate succeeds
    intro inputKey propertyKey results errors key rest nextSchema nextInput htr results2 errors3
      hvok ih1 ih4 out hv
    rw [nestedLoop.eq_def] at hv
    simp only [] at hv
    rw [dif_pos (show (truthy (jsGet propertyKey key) && truthy (jsGet inputKey key)) = true
      from htr)] at hv
    split at hv
    · rename_i e2 heq
      exact absurd (hvok.symm.trans heq) (by simp)
    · rename_i r2b e3b heq
      have hlink := hvok.symm.trans heq
      injection hlink with hp
      have h1 : results2 = r2b := congrArg Prod.fst hp
      have h2 : errors3 = e3b := congrArg Prod.snd hp
      rw [← h1, ← h2] at hv
      obtain ⟨⟨a, ha0⟩, ⟨c, hc0⟩⟩ := ih1 (results2, errors3) hvok
      have ha : results2 = results ++ a := ha0
      have hc : errors3 = errors ++ c := hc0
      exact extendsFrom_compose (ih4 out hv) ⟨a, ha⟩ ⟨c, hc⟩
  case _ => -- 14: nested loop, skipped pair
    intro inputKey propertyKey results errors key rest nextSchema nextInput htr ih4 out hv
    rw [nestedLoop.eq_def] at hv
    simp only [] at hv
    rw [dif_neg (show ¬(truthy (jsGet propertyKey key) && truthy (jsGet inputKey key)) = true
      from htr)] at hv
    exact ih4 out hv


/-- `validate` only appends to the accumulators it is given. -/
theorem validate_extends {schema input : Js} {results errors : List Res}
    {out : List Res × List Res} (h : validate schema input results errors = .ok out) :
    ExtendsFrom results errors out := by
  rw [validate.eq_def] at h
  rcases hre : requiredList schema with e | req
  · simp only [hre] at h
    cases h
  · simp only [hre] at h
    rcases hck : checkForRequiredKeysErrors req input errors with e | errors1
    · simp only [hck] at h
      cases h
    · simp only [hck] at h
      refine extendsFrom_compose (validateLoop_extends _ _ _ _ _ _ out h)
        ⟨[], (List.append_nil _).symm⟩ ?_
      obtain ⟨d, hd⟩ := checkForRequiredKeysErrors_extends hck
      obtain ⟨d', hd'⟩ := checkForDisallowedProperties_extends (objKeys input) (objKeys schema)
        errors1 (additionalsOk schema)
      exact ⟨d ++ d', by rw [hd', hd, List.append_assoc]⟩



/-! ## Helper lemmas for the claim theorems -/

theorem truthy_false_jsGet {p : Js} (h : truthy p = false) (k : String) :
    jsGet p k = Js.undefined := by
  cases p <;> first | rfl | simp [truthy] at h

theorem runChecks_eq_find (cs : List Check) :
    runChecks cs =
      (match cs.find? (fun c => c.cond && !c.valid) with
       | some c => ⟨false, some c.error⟩
       | none => ⟨true, none⟩) := by
  induction cs with
  | nil => rfl
  | cons c rest ih =>
    by_cases h : (c.cond && !c.valid) = true
    · simp [runChecks, List.find?, h]
    · simp only [Bool.not_eq_true] at h
      simp [runChecks, List.find?, h, ih]

theorem checkForRequiredKeysErrors_of_empty (input : Js) (errs : List Res) :
    checkForRequiredKeysErrors [] input errs = .ok errs := by
  unfold checkForRequiredKeysErrors areRequiredKeysPresent
  cases input <;> rfl

theorem checkForRequiredKeysErrors_push {req : List Js} {input : Js} (errs : List Res)
    (hnn : input ≠ Js.null) (hnu : input ≠ Js.undefined)
    (hmiss : req.all (fun k => jsInStrList k (objKeys input)) = false) :
    checkForRequiredKeysErrors req input errs = .ok (errs ++ [requiredKeyError req input]) := by
  have hpres : areRequiredKeysPresent req input = .ok false := by
    unfold areRequiredKeysPresent
    have hne : req.isEmpty = false := by
      cases req with
      | nil => simp at hmiss
      | cons a t => rfl
    cases input <;> simp_all
  unfold checkForRequiredKeysErrors
  rw [hpres]

theorem all_eq_false_of_mem {req : List Js} {name : String}
    (hmem : Js.str name ∈ req) {keys : List String} (habsent : keys.contains name = false) :
    req.all (fun k => jsInStrList k keys) = false := by
  rw [List.all_eq_false]
  refine ⟨Js.str name, hmem, ?_⟩
  simp only [jsInStrList]
  intro hm
  rw [habsent] at hm
  exact Bool.noConfusion hm

theorem isSuccessful_compile_iff (rs es : List Res) :
    isSuccessful rs (compileErrors rs es) = true ↔
      ((∀ r ∈ rs, r.success = true) ∧ es = []) := by
  unfold isSuccessful compileErrors
  constructor
  · intro h
    rw [Bool.and_eq_true] at h
    obtain ⟨h1, h2⟩ := h
    refine ⟨fun r hr => by simpa using (List.all_eq_true.mp h1 r hr), ?_⟩
    have : (es ++ rs.filter (fun r => r.success == false)).length = 0 := by
      simpa using h2
    simp only [List.length_append, Nat.add_eq_zero, List.length_eq_zero] at this
    exact this.1
  · intro ⟨h1, h2⟩
    subst h2
    have hf : rs.filter (fun r => r.success == false) = [] := by
      rw [List.filter_eq_nil_iff]
      intro r hr
      simp [h1 r hr]
    simp only [hf, List.append_nil, List.length_nil]
    have hall : rs.all (fun r => r.success == true) = true := by
      rw [List.all_eq_true]
      intro x hx
      simpa using h1 x hx
    simp only [hall]
    simp

theorem compileErrors_eq_nil {rs es : List Res}
    (h1 : ∀ r ∈ rs, r.success = true) (h2 : es = []) :
    compileErrors rs es = [] := by
  subst h2
  unfold compileErrors
  have hf : rs.filter (fun r => r.success == false) = [] := by
    rw [List.filter_eq_nil_iff]
    intro r hr
    simp [h1 r hr]
  simp only [hf, List.append_nil]

theorem isSuccessful_false_of_ne_nil (rs : List Res) {agg : List Res} (h : agg ≠ []) :
    isSuccessful rs agg = false := by
  unfold isSuccessful
  have : (agg.length == 0) = false := by
    simp [List.length_eq_zero, h]
  simp [this]


/-! ## The claims -/


/-- C1: for every schema and input accepted by `test`, the returned
success flag is `true` iff every accumulated Leaf Result has
`success = true` and the structural-error list is empty; in particular,
with no violations `test` returns `success = true` and `errors = []`. -/
theorem C1_success_characterisation (schema input : Js) (rs es : List Res) (r : TestOutcome)
    (hv : validate (jsGet schema "properties") input [] [] = .ok (rs, es))
    (ht : test schema input = .ok r) :
    (r.success = true ↔ ((∀ x ∈ rs, x.success = true) ∧ es = [])) ∧
    (((∀ x ∈ rs, x.success = true) ∧ es = []) → r.success = true ∧ r.errors = []) := by
  unfold test at ht
  split at ht
  · rw [hv] at ht
    simp only [Except.ok.injEq] at ht
    subst ht
    exact ⟨isSuccessful_compile_iff rs es,
      fun h => ⟨(isSuccessful_compile_iff rs es).2 h, compileErrors_eq_nil h.1 h.2⟩⟩
  · cases ht

def w1schema : Js := Js.obj [("properties", Js.obj [("a", Js.obj [("type", Js.str "string")])])]

def w1rs : List Res := [⟨"a", Js.str "x", true, ""⟩]

/-- Witness for C1 at a concrete schema and input. -/
theorem C1_success_characterisation_witness :
    (((⟨[], true⟩ : TestOutcome).success = true ↔
        ((∀ x ∈ w1rs, x.success = true) ∧ ([] : List Res) = [])) ∧
     (((∀ x ∈ w1rs, x.success = true) ∧ ([] : List Res) = []) →
        (⟨[], true⟩ : TestOutcome).success = true ∧ (⟨[], true⟩ : TestOutcome).errors = [])) :=
  C1_success_characterisation w1schema (Js.obj [("a", Js.str "x")]) w1rs [] ⟨[], true⟩
    (by simp +decide [w1schema, w1rs, validate, validateLoop, handleNestedObject, nestedLoop,
      jsGet, objKeys, requiredList, checkForRequiredKeysErrors, areRequiredKeysPresent,
      additionalsOk, checkForDisallowedProperties, findNonOverlappingElements,
      missingRequiredKeys, requiredKeyError, jsInStrList, jsJoin, arrayJoinElem, truthy,
      isDefined, requiredContains, sq, List.find?, List.filter, handleValidation,
      validateProperty, validateInput, runChecks, checks, isCorrectType, isObject, isArray,
      itemsNotNull, arrayElems, getNestedObjects])
    (by simp +decide [w1schema, w1rs, test, validate, validateLoop, handleNestedObject,
      nestedLoop, jsGet, objKeys, requiredList, checkForRequiredKeysErrors,
      areRequiredKeysPresent, additionalsOk, checkForDisallowedProperties,
      findNonOverlappingElements, missingRequiredKeys, requiredKeyError, jsInStrList, jsJoin,
      arrayJoinElem, truthy, isDefined, requiredContains, compileErrors, isSuccessful, sq,
      List.find?, List.filter, handleValidation, validateProperty, validateInput, runChecks,
      checks, isCorrectType, isObject, isArray, itemsNotNull, arrayElems, getNestedObjects])


/-- C2 counterexample: a root-level `required` list placed as a sibling of
`properties` (the shape the claim prescribes) is ignored: the input is
missing the required name `a`, yet `test` returns `success = true` with no
errors. -/
theorem C2_counterexample :
    test (Js.obj [("properties", Js.obj [("a", Js.obj [("type", Js.str "string")])]),
        ("required", Js.arr [Js.str "a"])])
      (Js.obj []) = .ok ⟨[], true⟩ := by
  simp +decide [test, validate, validateLoop, handleNestedObject, nestedLoop,
      jsGet, objKeys, requiredList, checkForRequiredKeysErrors, areRequiredKeysPresent,
      additionalsOk, checkForDisallowedProperties, findNonOverlappingElements,
      missingRequiredKeys, requiredKeyError, jsInStrList, jsJoin, arrayJoinElem, truthy,
      isDefined, requiredContains, compileErrors, isSuccessful, sq, List.find?, List.filter,
      handleValidation, validateProperty, validateInput, runChecks, checks, isCorrectType,
      isObject, isArray, itemsNotNull, arrayElems, getNestedObjects]

/-- C2 amended: `test` resolves `required` from inside the `properties`
node; when that list names a key absent from the input, the run fails and
reports the missing-required-key Structural Error. -/
theorem C2_required_resolved_inside_properties
    (props input : Js) (req : List Js) (name : String) (r : TestOutcome)
    (hreq : requiredList props = .ok req)
    (hmem : Js.str name ∈ req)
    (habsent : (objKeys input).contains name = false)
    (ht : test (Js.obj [("properties", props)]) input = .ok r) :
    r.success = false ∧ requiredKeyError req input ∈ r.errors := by
  unfold test at ht
  split at ht
  case isTrue htr =>
    have hnn : input ≠ Js.null := by intro h; subst h; simp [truthy] at htr
    have hnu : input ≠ Js.undefined := by intro h; subst h; simp [truthy] at htr
    have hprops : jsGet (Js.obj [("properties", props)]) "properties" = props := by
      simp [jsGet, List.find?]
    rw [hprops] at ht
    rcases hv : validate props input [] [] with e | pair
    · rw [hv] at ht
      cases ht
    · rw [hv] at ht
      obtain ⟨rs, es⟩ := pair
      rw [validate.eq_def] at hv
      simp only [hreq] at hv
      have hmiss : req.all (fun k => jsInStrList k (objKeys input)) = false :=
        all_eq_false_of_mem hmem habsent
      simp only [checkForRequiredKeysErrors_push ([] : List Res) hnn hnu hmiss] at hv
      obtain ⟨d', hd'⟩ := checkForDisallowedProperties_extends (objKeys input) (objKeys props)
        ([] ++ [requiredKeyError req input]) (additionalsOk props)
      rw [hd'] at hv
      obtain ⟨_, ⟨de, hde0⟩⟩ := validateLoop_extends _ _ _ _ _ _ (rs, es) hv
      have hde : es = (([] ++ [requiredKeyError req input]) ++ d') ++ de := hde0
      simp only [Except.ok.injEq] at ht
      subst ht
      have hes : requiredKeyError req input ∈ es := by
        rw [hde]
        simp
      constructor
      · show isSuccessful rs (compileErrors rs es) = false
        apply isSuccessful_false_of_ne_nil
        unfold compileErrors
        intro hc
        rw [List.append_eq_nil] at hc
        rw [hc.1] at hes
        cases hes
      · show requiredKeyError req input ∈ compileErrors rs es
        unfold compileErrors
        exact List.mem_append_left _ hes
  case isFalse => cases ht

/-- Witness for the amended C2 at a concrete schema and input. -/
theorem C2_required_resolved_inside_properties_witness :
    (⟨[requiredKeyError [Js.str "a"] (Js.obj [])], false⟩ : TestOutcome).success = false ∧
    requiredKeyError [Js.str "a"] (Js.obj []) ∈
      (⟨[requiredKeyError [Js.str "a"] (Js.obj [])], false⟩ : TestOutcome).errors :=
  C2_required_resolved_inside_properties
    (Js.obj [("a", Js.obj [("type", Js.str "string")]), ("required", Js.arr [Js.str "a"])])
    (Js.obj []) [Js.str "a"] "a" ⟨[requiredKeyError [Js.str "a"] (Js.obj [])], false⟩
    (by simp +decide [requiredList, jsGet, List.find?])
    (by simp)
    (by decide)
    (by simp +decide [test, validate, validateLoop, handleNestedObject, nestedLoop,
      jsGet, objKeys, requiredList, checkForRequiredKeysErrors, areRequiredKeysPresent,
      additionalsOk, checkForDisallowedProperties, findNonOverlappingElements,
      missingRequiredKeys, requiredKeyError, jsInStrList, jsJoin, arrayJoinElem, truthy,
      isDefined, requiredContains, compileErrors, isSuccessful, sq, List.find?, List.filter,
      handleValidation, validateProperty, validateInput, runChecks, checks, isCorrectType,
      isObject, isArray, itemsNotNull, arrayElems, getNestedObjects])

/-- C3: at every validation level the names of this level's `required`
list that are absent from the input's own keys are collected into one
Structural Error with empty `key`, the offending container as `value` and
the comma-joined missing names in the message; and the concrete example of
the claim evaluates exactly as stated. -/
theorem C3_missing_required_error_shape :
    (∀ (req : List Js) (input : Js) (errs : List Res),
      input ≠ Js.null → input ≠ Js.undefined →
      req.all (fun k => jsInStrList k (objKeys input)) = false →
      checkForRequiredKeysErrors req input errs =
        .ok (errs ++ [⟨"", input, false,
          "Missing the required key: " ++ sq ++
            jsJoin ", " (missingRequiredKeys req
              (if truthy input then objKeys input else [])) ++ sq ++ "!"⟩])) ∧
    (test (Js.obj [("properties", Js.obj [
        ("a", Js.obj [("type", Js.str "string")]),
        ("b", Js.obj [("type", Js.str "string")]),
        ("required", Js.arr [Js.str "a", Js.str "b"])])])
      (Js.obj []) =
      .ok ⟨[⟨"", Js.obj [], false,
        "Missing the required key: " ++ sq ++ "a, b" ++ sq ++ "!"⟩], false⟩) := by
  constructor
  · intro req input errs hnn hnu hmiss
    rw [checkForRequiredKeysErrors_push errs hnn hnu hmiss]
    rfl
  · simp +decide [test, validate, validateLoop, handleNestedObject, nestedLoop,
      jsGet, objKeys, requiredList, checkForRequiredKeysErrors, areRequiredKeysPresent,
      additionalsOk, checkForDisallowedProperties, findNonOverlappingElements,
      missingRequiredKeys, requiredKeyError, jsInStrList, jsJoin, arrayJoinElem, truthy,
      isDefined, requiredContains, compileErrors, isSuccessful, sq, List.find?, List.filter,
      handleValidation, validateProperty, validateInput, runChecks, checks, isCorrectType,
      isObject, isArray, itemsNotNull, arrayElems, getNestedObjects]

/-- Witness for C3 at a concrete required list and input. -/
theorem C3_missing_required_error_shape_witness :
    checkForRequiredKeysErrors [Js.str "a"] (Js.obj []) [] =
      .ok ([] ++ [⟨"", Js.obj [], false,
        "Missing the required key: " ++ sq ++
          jsJoin ", " (missingRequiredKeys [Js.str "a"]
            (if truthy (Js.obj []) then objKeys (Js.obj []) else [])) ++ sq ++ "!"⟩]) :=
  C3_missing_required_error_shape.1 [Js.str "a"] (Js.obj []) []
    (by intro h; cases h) (by intro h; cases h) (by rfl)


/-- C6 counterexample: the schema key `maxLength` is present with value
`0`, the check would fail on the input (`isMaximumLength` is `false`), yet
`validateInput` succeeds because the dispatch conditions test truthiness,
not presence. -/
theorem C6_counterexample :
    validateInput (Js.obj [("type", Js.str "string"), ("maxLength", Js.num 0)])
        (Js.str "abc") = ⟨true, none⟩ ∧
    isMaximumLength (Js.num 0) (Js.str "abc") = false :=
  ⟨rfl, rfl⟩

/-- C6 amended: `validateInput` runs the seven checks in the fixed order
with the stated labels, each check applied exactly when the corresponding
schema key holds a *truthy* value, and the first applied-and-failing check
short-circuits with its label (the result is that of the first entry of the
ordered check list whose condition holds and whose validator fails). -/
theorem C6_ordered_truthy_dispatch (properties m : Js) :
    (validateInput properties m =
      (match (checks properties m).find? (fun c => c.cond && !c.valid) with
       | some c => ⟨false, some c.error⟩
       | none => ⟨true, none⟩)) ∧
    ((checks properties m).map Check.cond =
      [truthy (jsGet properties "type"), truthy (jsGet properties "format"),
       truthy (jsGet properties "minLength"), truthy (jsGet properties "maxLength"),
       truthy (jsGet properties "minValue"), truthy (jsGet properties "maxValue"),
       truthy (jsGet properties "matchesPattern")]) ∧
    ((checks properties m).map Check.valid =
      [isCorrectType (jsGet properties "type") m,
       isCorrectFormat (jsGet properties "format") m,
       isMinimumLength (jsGet properties "minLength") m,
       isMaximumLength (jsGet properties "maxLength") m,
       isMinimumValue (jsGet properties "minValue") m,
       isMaximumValue (jsGet properties "maxValue") m,
       matchesPattern (jsGet properties "matchesPattern") m]) ∧
    ((checks properties m).map Check.error =
      ["Invalid type", "Invalid format", "Length too short", "Length too long",
       "Value too small", "Value too large", "Pattern does not match"]) := by
  refine ⟨?_, rfl, rfl, rfl⟩
  unfold validateInput
  split
  · exact runChecks_eq_find _
  · rename_i hp
    rw [Bool.not_eq_true] at hp
    have h0 : ∀ k, jsGet properties k = Js.undefined := fun k => truthy_false_jsGet hp k
    simp [checks, h0, List.find?, truthy]

/-- C7 counterexample: the Structural Error for disallowed extra keys reads
`Has additional (disallowed) properties: …` — with parentheses — not the
`Has additional disallowed properties: …` wording the claim states. -/
theorem C7_counterexample :
    test (Js.obj [("properties", Js.obj [
        ("x", Js.obj [("type", Js.str "string")]),
        ("additionalProperties", Js.bool false)])])
      (Js.obj [("x", Js.str "a"), ("y", Js.str "b")]) =
      .ok ⟨[⟨"x,additionalProperties", Js.arr [Js.str "x", Js.str "y"], false,
        "Has additional (disallowed) properties: " ++ sq ++ "y" ++ sq ++ "!"⟩], false⟩ ∧
    ("Has additional (disallowed) properties: " ++ sq ++ "y" ++ sq ++ "!" ≠
      "Has additional disallowed properties: " ++ sq ++ "y" ++ sq ++ "!") := by
  constructor
  · simp +decide [test, validate, validateLoop, handleNestedObject, nestedLoop,
      jsGet, objKeys, requiredList, checkForRequiredKeysErrors, areRequiredKeysPresent,
      additionalsOk, checkForDisallowedProperties, findNonOverlappingElements,
      missingRequiredKeys, requiredKeyError, jsInStrList, jsJoin, arrayJoinElem, truthy,
      isDefined, requiredContains, compileErrors, isSuccessful, sq, List.find?, List.filter,
      handleValidation, validateProperty, validateInput, runChecks, checks, isCorrectType,
      isObject, isArray, itemsNotNull, arrayElems, getNestedObjects]
  · decide

/-- C7 amended: when `additionalProperties` is truthy no disallowed-keys
error is produced; when it is falsy and every input key is declared none is
produced; and when extraneous keys exist exactly one Structural Error is
appended, listing all of them comma-joined in the parenthesised wording. -/
theorem C7_disallowed_properties_check :
    (∀ (inputKeys propertyKeys : List String) (errors : List Res),
      checkForDisallowedProperties inputKeys propertyKeys errors true = errors) ∧
    (∀ (inputKeys propertyKeys : List String) (errors : List Res),
      findNonOverlappingElements inputKeys propertyKeys = [] →
      checkForDisallowedProperties inputKeys propertyKeys errors false = errors) ∧
    (∀ (inputKeys propertyKeys : List String) (errors : List Res),
      findNonOverlappingElements inputKeys propertyKeys ≠ [] →
      checkForDisallowedProperties inputKeys propertyKeys errors false =
        errors ++ [⟨String.intercalate "," propertyKeys, Js.arr (inputKeys.map Js.str), false,
          "Has additional (disallowed) properties: " ++ sq ++
            String.intercalate ", " (findNonOverlappingElements inputKeys propertyKeys) ++
            sq ++ "!"⟩]) := by
  refine ⟨fun a b e => rfl, fun a b e h => ?_, fun a b e h => ?_⟩
  · unfold checkForDisallowedProperties
    simp [h]
  · unfold checkForDisallowedProperties
    have hl : 0 < (findNonOverlappingElements a b).length := List.length_pos.mpr h
    simp [hl]

/-- Witness for the amended C7 at concrete key lists. -/
theorem C7_disallowed_properties_check_witness :
    checkForDisallowedProperties ["x", "y"] ["x"] [] false =
      [] ++ [⟨String.intercalate "," ["x"], Js.arr (["x", "y"].map Js.str), false,
        "Has additional (disallowed) properties: " ++ sq ++
          String.intercalate ", " (findNonOverlappingElements ["x", "y"] ["x"]) ++
          sq ++ "!"⟩] :=
  C7_disallowed_properties_check.2.2 ["x", "y"] ["x"] [] (by decide)

/-- C9 counterexample: reserved metadata keys are *not* excluded from the
property iteration: with the reserved key `required` present in the input,
a Leaf Result keyed `required` is produced; and with
`additionalProperties: false`, an input key named like the schema node
metadata key `required` is treated as declared and never flagged. -/
theorem C9_counterexample :
    validate (Js.obj [("a", Js.obj [("type", Js.str "string")]),
        ("required", Js.arr [Js.str "a"])])
      (Js.obj [("a", Js.str "x"), ("required", Js.str "y")]) [] [] =
      .ok ([⟨"a", Js.str "x", true, ""⟩, ⟨"required", Js.str "y", true, ""⟩], []) ∧
    test (Js.obj [("properties", Js.obj [("a", Js.obj [("type", Js.str "string")]),
        ("required", Js.arr [Js.str "a"]), ("additionalProperties", Js.bool false)])])
      (Js.obj [("a", Js.str "x"), ("required", Js.str "y")]) = .ok ⟨[], true⟩ := by
  constructor <;>
    simp +decide [test, validate, validateLoop, handleNestedObject, nestedLoop,
      jsGet, objKeys, requiredList, checkForRequiredKeysErrors, areRequiredKeysPresent,
      additionalsOk, checkForDisallowedProperties, findNonOverlappingElements,
      missingRequiredKeys, requiredKeyError, jsInStrList, jsJoin, arrayJoinElem, truthy,
      isDefined, requiredContains, compileErrors, isSuccessful, sq, List.find?, List.filter,
      handleValidation, validateProperty, validateInput, runChecks, checks, isCorrectType,
      isObject, isArray, itemsNotNull, arrayElems, getNestedObjects,
      keyToIndex, keyToIndexAux, decDigitVal]

/-- C9 amended: schema-node keys — reserved metadata keys included — are
all iterated; a key contributes nothing only when its input value is not
defined (and it is not required at this level), and any key present among
the schema node keys (reserved ones included) is never listed as a
disallowed additional property. -/
theorem C9_reserved_keys_not_excluded :
    (∀ (schema input : Js) (req : List Js) (k : String) (rest : List String)
       (results errors : List Res),
      isDefined (jsGet input k) = false →
      (requiredContains req k && k != "required") = false →
      validateLoop schema input req (k :: rest) results errors =
        validateLoop schema input req rest results errors) ∧
    (∀ (inputKeys propertyKeys : List String) (k : String),
      k ∈ propertyKeys → k ∉ findNonOverlappingElements inputKeys propertyKeys) := by
  constructor
  · intro schema input req k rest results errors hdef hreq
    rw [validateLoop.eq_def]
    simp only [hreq, hdef]
    simp
  · intro a b k hk hmem
    rw [findNonOverlappingElements, List.mem_filter] at hmem
    have := hmem.2
    simp at this
    exact this hk

/-- Witness for the amended C9 at a concrete key. -/
theorem C9_reserved_keys_not_excluded_witness :
    "required" ∉ findNonOverlappingElements ["a", "required"] ["a", "required"] :=
  C9_reserved_keys_not_excluded.2 ["a", "required"] ["a", "required"] "required" (by simp)

/-- C4: the code evaluated at the failing inputs.  `isDefined` is falsy for
`0`, `false` and `NaN` although they are defined, non-null values, so the
declared child key `n` yields no Leaf Result and `test` succeeds even
though the (skipped) type check would have failed. -/
theorem C4_falsy_values_skipped :
    isDefined (Js.num 0) = false ∧
    isDefined (Js.bool false) = false ∧
    isDefined Js.nan = false ∧
    validateInput (Js.obj [("type", Js.str "string")]) (Js.num 0) =
      ⟨false, some "Invalid type"⟩ ∧
    test (Js.obj [("properties", Js.obj [("n", Js.obj [("type", Js.str "string")])])])
      (Js.obj [("n", Js.num 0)]) = .ok ⟨[], true⟩ := by
  refine ⟨rfl, rfl, rfl, rfl, ?_⟩
  simp +decide [test, validate, validateLoop, handleNestedObject, nestedLoop,
      jsGet, objKeys, requiredList, checkForRequiredKeysErrors, areRequiredKeysPresent,
      additionalsOk, checkForDisallowedProperties, findNonOverlappingElements,
      missingRequiredKeys, requiredKeyError, jsInStrList, jsJoin, arrayJoinElem, truthy,
      isDefined, requiredContains, compileErrors, isSuccessful, sq, List.find?, List.filter,
      handleValidation, validateProperty, validateInput, runChecks, checks, isCorrectType,
      isObject, isArray, itemsNotNull, arrayElems, getNestedObjects]

/-- C10: the code evaluated at the claim's inputs.  `test` throws
`Missing input!` for `null`/`undefined` input; but for the non-null input
object `{o: null}` whose key is required at the parent and whose child
schema carries a non-empty `required` list, the required check applies
`Object.keys` to `null` and throws a `TypeError` instead of collecting the
violation. -/
theorem C10_throw_behaviour :
    test (Js.obj [("properties", Js.obj [("money", Js.obj [("type", Js.str "number")])])])
      Js.null = .error "Missing input!" ∧
    test (Js.obj [("properties", Js.obj [("money", Js.obj [("type", Js.str "number")])])])
      Js.undefined = .error "Missing input!" ∧
    test (Js.obj [("properties", Js.obj [
        ("o", Js.obj [("x", Js.obj [("type", Js.str "string")]),
          ("required", Js.arr [Js.str "x"])]),
        ("required", Js.arr [Js.str "o"])])])
      (Js.obj [("o", Js.null)]) =
      .error "TypeError: Cannot convert undefined or null to object" := by
  refine ⟨rfl, rfl, ?_⟩
  simp +decide [test, validate, validateLoop, handleNestedObject, nestedLoop,
      jsGet, objKeys, requiredList, checkForRequiredKeysErrors, areRequiredKeysPresent,
      additionalsOk, checkForDisallowedProperties, findNonOverlappingElements,
      missingRequiredKeys, requiredKeyError, jsInStrList, jsJoin, arrayJoinElem, truthy,
      isDefined, requiredContains, compileErrors, isSuccessful, sq, List.find?, List.filter,
      handleValidation, validateProperty, validateInput, runChecks, checks, isCorrectType,
      isObject, isArray, itemsNotNull, arrayElems, getNestedObjects,
      keyToIndex, keyToIndexAux, decDigitVal]


/-- C8 counterexample: the declared child key `o` holds a plain object and
its child schema declares the further child key `x` with `required: [x]`;
the key `o` is not listed as required at the parent level, and the child
level required list is *not* enforced: `test` succeeds on `{o: {}}`. -/
theorem C8_counterexample :
    test (Js.obj [("properties", Js.obj [
        ("o", Js.obj [("x", Js.obj [("type", Js.str "string")]),
          ("required", Js.arr [Js.str "x"])])])])
      (Js.obj [("o", Js.obj [])]) = .ok ⟨[], true⟩ := by
  simp +decide [test, validate, validateLoop, handleNestedObject, nestedLoop,
      jsGet, objKeys, requiredList, checkForRequiredKeysErrors, areRequiredKeysPresent,
      additionalsOk, checkForDisallowedProperties, findNonOverlappingElements,
      missingRequiredKeys, requiredKeyError, jsInStrList, jsJoin, arrayJoinElem, truthy,
      isDefined, requiredContains, compileErrors, isSuccessful, sq, List.find?, List.filter,
      handleValidation, validateProperty, validateInput, runChecks, checks, isCorrectType,
      isObject, isArray, itemsNotNull, arrayElems, getNestedObjects,
      keyToIndex, keyToIndexAux, decDigitVal]

/-- C8 amended: the child node's own `required` list is enforced in the
parent loop only when the child key is listed in the parent's `required`
list (first two conjuncts: enforced when listed, silent when not); the
nested recursion (`handleNestedObject`) instead descends into each truthy
sub-schema/sub-input pair of the child, calling `validate` on the shared
accumulators, and every `validate` call re-applies the required and
additional-properties checks at its own level (last two conjuncts). -/
theorem C8_nested_required_conditional :
    (test (Js.obj [("properties", Js.obj [
        ("o", Js.obj [("x", Js.obj [("type", Js.str "string")]),
          ("required", Js.arr [Js.str "x"])]),
        ("required", Js.arr [Js.str "o"])])])
      (Js.obj [("o", Js.obj [])]) =
      .ok ⟨[⟨"", Js.obj [], false,
        "Missing the required key: " ++ sq ++ "x" ++ sq ++ "!"⟩], false⟩) ∧
    (test (Js.obj [("properties", Js.obj [
        ("o", Js.obj [("x", Js.obj [("type", Js.str "string")]),
          ("required", Js.arr [Js.str "x"])])])])
      (Js.obj [("o", Js.obj [("y", Js.num 5)])]) = .ok ⟨[], true⟩) ∧
    (∀ (schema input : Js) (results errors : List Res),
      validate schema input results errors =
        (match requiredList schema with
         | .error e => .error e
         | .ok req =>
           match checkForRequiredKeysErrors req input errors with
           | .error e => .error e
           | .ok errors1 =>
             validateLoop schema input req (objKeys schema) results
               (checkForDisallowedProperties (objKeys input) (objKeys schema) errors1
                 (additionalsOk schema)))) ∧
    (∀ (inputKey propertyKey : Js) (m : String) (rest : List String)
       (results errors : List Res),
      truthy (jsGet propertyKey m) = true → truthy (jsGet inputKey m) = true →
      nestedLoop inputKey propertyKey (m :: rest) results errors =
        (match validate (jsGet propertyKey m) (jsGet inputKey m) results errors with
         | .error e => .error e
         | .ok (results1, errors1) => nestedLoop inputKey propertyKey rest results1 errors1)) := by
  refine ⟨?_, ?_, ?_, ?_⟩
  · simp +decide [test, validate, validateLoop, handleNestedObject, nestedLoop,
      jsGet, objKeys, requiredList, checkForRequiredKeysErrors, areRequiredKeysPresent,
      additionalsOk, checkForDisallowedProperties, findNonOverlappingElements,
      missingRequiredKeys, requiredKeyError, jsInStrList, jsJoin, arrayJoinElem, truthy,
      isDefined, requiredContains, compileErrors, isSuccessful, sq, List.find?, List.filter,
      handleValidation, validateProperty, validateInput, runChecks, checks, isCorrectType,
      isObject, isArray, itemsNotNull, arrayElems, getNestedObjects,
      keyToIndex, keyToIndexAux, decDigitVal]
  · simp +decide [test, validate, validateLoop, handleNestedObject, nestedLoop,
      jsGet, objKeys, requiredList, checkForRequiredKeysErrors, areRequiredKeysPresent,
      additionalsOk, checkForDisallowedProperties, findNonOverlappingElements,
      missingRequiredKeys, requiredKeyError, jsInStrList, jsJoin, arrayJoinElem, truthy,
      isDefined, requiredContains, compileErrors, isSuccessful, sq, List.find?, List.filter,
      handleValidation, validateProperty, validateInput, runChecks, checks, isCorrectType,
      isObject, isArray, itemsNotNull, arrayElems, getNestedObjects,
      keyToIndex, keyToIndexAux, decDigitVal]
  · intro schema input results errors
    rw [validate.eq_def]
  · intro inputKey propertyKey m rest results errors h1 h2
    rw [nestedLoop.eq_def]
    simp [h1, h2]

/-- Witness for the amended C8: the recursion equation applied at a
concrete nested pair. -/
theorem C8_nested_required_conditional_witness :
    nestedLoop (Js.obj [("m", Js.num 1)]) (Js.obj [("m", Js.obj [("type", Js.str "number")])])
        ["m"] [] [] =
      (match validate (jsGet (Js.obj [("m", Js.obj [("type", Js.str "number")])]) "m")
          (jsGet (Js.obj [("m", Js.num 1)]) "m") [] [] with
       | .error e => .error e
       | .ok (results1, errors1) =>
         nestedLoop (Js.obj [("m", Js.num 1)]) (Js.obj [("m", Js.obj [("type", Js.str "number")])])
           [] results1 errors1) :=
  C8_nested_required_conditional.2.2.2 (Js.obj [("m", Js.num 1)])
    (Js.obj [("m", Js.obj [("type", Js.str "number")])]) "m" [] [] [] rfl rfl


/-- Scalar sample values for which the flat round trip is proved: non-empty
strings, numbers, booleans. -/
def flatScalarOk : Js → Bool
  | .str s => s ≠ ""
  | .num _ => true
  | .bool _ => true
  | _ => false

theorem schemaFromChild_scalar {v : Js} (h : flatScalarOk v = true) :
    schemaFromChild v = generatePropertySchema v := by
  cases v <;> first | rfl | simp [flatScalarOk] at h

theorem jsGet_obj_of_mem {fs : List (String × Js)} {k : String} {v : Js}
    (hnodup : (fs.map Prod.fst).Nodup) (hmem : (k, v) ∈ fs) :
    jsGet (Js.obj fs) k = v := by
  induction fs with
  | nil => cases hmem
  | cons p t ih =>
    rcases List.mem_cons.mp hmem with h | h
    · subst h
      simp [jsGet, List.find?]
    · have hk : p.1 ≠ k := by
        intro hkk
        have : k ∈ t.map Prod.fst := List.mem_map.mpr ⟨(k, v), h, rfl⟩
        rw [List.map_cons, List.nodup_cons] at hnodup
        exact hnodup.1 (hkk ▸ this)
      have hbeq : (p.1 == k) = false := by simpa using hk
      have ht := ih (by rw [List.map_cons, List.nodup_cons] at hnodup; exact hnodup.2) h
      simpa [jsGet, List.find?, hbeq] using ht

theorem jsGet_obj_of_not_mem {fs : List (String × Js)} {k : String}
    (h : k ∉ fs.map Prod.fst) : jsGet (Js.obj fs) k = Js.undefined := by
  have hf : fs.find? (fun p => p.1 == k) = none := by
    rw [List.find?_eq_none]
    intro p hp
    simp only [beq_iff_eq]
    intro hk
    exact h (List.mem_map.mpr ⟨p, hp, hk⟩)
  simp [jsGet, hf]

theorem additionalsOk_of_objValues {l : List (String × Js)}
    (h : ∀ p ∈ l, ∃ gs, p.2 = Js.obj gs) : additionalsOk (Js.obj l) = true := by
  unfold additionalsOk
  cases hf : l.find? (fun p => p.1 == "additionalProperties") with
  | none => simp [jsGet, hf]
  | some p =>
    obtain ⟨gs, hg⟩ := h p (List.mem_of_find?_eq_some hf)
    simp [jsGet, hf, hg, truthy]

theorem generatePropertySchema_isObj (v : Js) :
    ∃ gs, generatePropertySchema v = Js.obj gs := by
  unfold generatePropertySchema
  by_cases h : jsTypeof v == "string"
  · refine ⟨[("type", Js.str (jsTypeof v)), ("minLength", Js.num 1)], ?_⟩
    simp [h]
  · refine ⟨[("type", Js.str (jsTypeof v))], ?_⟩
    simp [h]

theorem genProp_validateInput {v : Js} (h : flatScalarOk v = true) :
    validateInput (generatePropertySchema v) v = ⟨true, none⟩ := by
  cases v with
  | str s =>
    have hs : s ≠ "" := by simpa [flatScalarOk] using h
    have hd : s.data ≠ [] := by
      intro hnil
      exact hs (String.ext (by simp [hnil]))
    have hlen : (1 : Int) ≤ (s.length : Int) := by
      have : 0 < s.length := by
        show 0 < s.data.length
        exact List.length_pos.mpr hd
      omega
    simp [validateInput, generatePropertySchema, checks, runChecks, jsGet, List.find?,
      truthy, isCorrectType, isMinimumLength, jsToStr, jsNum, jsTypeof, hlen]
  | num n => rfl
  | bool b => rfl
  | null => simp [flatScalarOk] at h
  | undefined => simp [flatScalarOk] at h
  | nan => simp [flatScalarOk] at h
  | arr xs => simp [flatScalarOk] at h
  | obj l => simp [flatScalarOk] at h
  | regexp f => simp [flatScalarOk] at h

theorem scalar_not_array {v : Js} (h : flatScalarOk v = true) : isArray v = false := by
  cases v <;> first | rfl | simp [flatScalarOk] at h

theorem scalar_not_object {v : Js} (h : flatScalarOk v = true) : isObject v = false := by
  cases v <;> first | rfl | simp [flatScalarOk] at h

theorem handleValidation_scalar {v : Js} (h : flatScalarOk v = true) (k : String)
    (pk : Js) (results : List Res) :
    handleValidation k v pk results = results ++ [validateProperty k pk v] := by
  unfold handleValidation
  rw [scalar_not_array h, scalar_not_object h]
  simp

theorem handleNestedObject_scalar {v : Js} (h : flatScalarOk v = true) (pk : Js)
    (results errors : List Res) :
    handleNestedObject v pk results errors = .ok (results, errors) := by
  rw [handleNestedObject.eq_def, scalar_not_object h]
  simp

theorem additionalsOk_genProp {v : Js} (h : flatScalarOk v = true) :
    additionalsOk (generatePropertySchema v) = true := by
  cases v <;> first | rfl | simp [flatScalarOk] at h


/-- Schema keywords that a nested sample object's keys must avoid in the
proved round-trip region: `generateNestedObjectSchema` writes the sample's
keys into the same record that carries these metadata fields, so a sample
key with one of these names overwrites the generated metadata (a `type`
key breaks the type check, a `required` key derails the required-list
extraction, and a check keyword such as `format` or `minLength` switches
the corresponding check on with the generated sub-schema as its
constraint). -/
def reservedKeys : List String :=
  ["type", "required", "format", "minLength", "maxLength", "minValue",
   "maxValue", "matchesPattern"]

mutual

/-- Sample values admissible at nested levels of the proved round trip:
non-empty strings, numbers, booleans, and plain objects whose keys are
pairwise distinct and avoid the reserved schema keywords and whose values
are again admissible.  Arrays are excluded below the top level: the
`generateNestedObjectSchema` loop gives them `generatePropertySchema`
(i.e. `{type: 'object'}`), which they then fail. -/
def goodVal : Js → Bool
  | .obj fs => goodFields fs
  | v => flatScalarOk v

/-- The field-list side of `goodVal`. -/
def goodFields : List (String × Js) → Bool
  | [] => true
  | (k, v) :: rest =>
    !reservedKeys.contains k && !(rest.map Prod.fst).contains k &&
      goodVal v && goodFields rest

end

/-- Arrays whose elements all share one `typeof`. -/
def homogeneousTypes : List Js → Bool
  | [] => true
  | e :: rest => rest.all (fun x => jsTypeof x == jsTypeof e)

/-- Top-level sample values: scalar arrays of one shared type, or any
`goodVal` value (scalars and nested plain objects). -/
def goodTop : Js → Bool
  | .arr xs => xs.all flatScalarOk && homogeneousTypes xs
  | v => goodVal v

/-- Top-level sample field lists: pairwise-distinct keys, none named
`required`, admissible values. -/
def goodSample : List (String × Js) → Bool
  | [] => true
  | (k, v) :: rest =>
    k != "required" && !(rest.map Prod.fst).contains k && goodTop v &&
      goodSample rest

theorem goodFields_nodup {fs : List (String × Js)} (h : goodFields fs = true) :
    (fs.map Prod.fst).Nodup := by
  induction fs with
  | nil => simp
  | cons p t ih =>
    obtain ⟨k, v⟩ := p
    simp only [goodFields, Bool.and_eq_true, Bool.not_eq_true'] at h
    rw [List.map_cons, List.nodup_cons]
    refine ⟨?_, ih h.2⟩
    intro hmem
    have hc : (k : String) ∉ t.map Prod.fst := by simpa using h.1.1.2
    exact hc hmem

theorem goodFields_val {fs : List (String × Js)} {k : String} {v : Js}
    (h : goodFields fs = true) (hm : (k, v) ∈ fs) :
    reservedKeys.contains k = false ∧ goodVal v = true := by
  induction fs with
  | nil => cases hm
  | cons p t ih =>
    obtain ⟨k', v'⟩ := p
    simp only [goodFields, Bool.and_eq_true, Bool.not_eq_true'] at h
    rcases List.mem_cons.mp hm with he | he
    · injection he with he1 he2
      subst he1; subst he2
      exact ⟨h.1.1.1, h.1.2⟩
    · exact ih h.2 he

theorem goodFields_not_reserved {fs : List (String × Js)}
    (h : goodFields fs = true) {r : String} (hr : r ∈ reservedKeys) :
    r ∉ fs.map Prod.fst := by
  intro hmem
  obtain ⟨⟨k, v⟩, hm, he⟩ := List.mem_map.mp hmem
  cases he
  have hnr : k ∉ reservedKeys := by simpa using (goodFields_val h hm).1
  exact hnr hr

theorem goodSample_nodup {fs : List (String × Js)} (h : goodSample fs = true) :
    (fs.map Prod.fst).Nodup := by
  induction fs with
  | nil => simp
  | cons p t ih =>
    obtain ⟨k, v⟩ := p
    simp only [goodSample, Bool.and_eq_true, Bool.not_eq_true'] at h
    rw [List.map_cons, List.nodup_cons]
    refine ⟨?_, ih h.2⟩
    intro hmem
    have hc : (k : String) ∉ t.map Prod.fst := by simpa using h.1.1.2
    exact hc hmem

theorem goodSample_val {fs : List (String × Js)} {k : String} {v : Js}
    (h : goodSample fs = true) (hm : (k, v) ∈ fs) :
    k ≠ "required" ∧ goodTop v = true := by
  induction fs with
  | nil => cases hm
  | cons p t ih =>
    obtain ⟨k', v'⟩ := p
    simp only [goodSample, Bool.and_eq_true, Bool.not_eq_true'] at h
    rcases List.mem_cons.mp hm with he | he
    · injection he with he1 he2
      subst he1; subst he2
      refine ⟨?_, h.1.2⟩
      simpa using h.1.1.1
    · exact ih h.2 he

/-- `jsGet` on a cons object node, unfolded one step. -/
theorem jsGet_obj_cons (a : String) (b : Js) (t : List (String × Js)) (k : String) :
    jsGet (Js.obj ((a, b) :: t)) k = if a == k then b else jsGet (Js.obj t) k := by
  by_cases h : a == k <;> simp [jsGet, List.find?, h]

theorem setField_keys (fs : List (String × Js)) (k : String) (w : Js) (x : String) :
    x ∈ (setField fs k w).map Prod.fst ↔ (x ∈ fs.map Prod.fst ∨ x = k) := by
  induction fs with
  | nil => simp [setField]
  | cons p t ih =>
    obtain ⟨a, b⟩ := p
    by_cases h : a == k
    · have ha : a = k := by simpa using h
      subst ha
      simp [setField, List.mem_cons]
      tauto
    · simp only [setField, if_neg h, List.map_cons, List.mem_cons, ih]
      tauto

theorem jsGet_setField_same (fs : List (String × Js)) (k : String) (w : Js) :
    jsGet (Js.obj (setField fs k w)) k = w := by
  induction fs with
  | nil => simp [setField, jsGet, List.find?]
  | cons p t ih =>
    obtain ⟨a, b⟩ := p
    by_cases h : a == k
    · rw [setField, if_pos h, jsGet_obj_cons, if_pos h]
    · rw [setField, if_neg h, jsGet_obj_cons, if_neg h, ih]

theorem jsGet_setField_other (fs : List (String × Js)) (k x : String) (w : Js)
    (hx : x ≠ k) : jsGet (Js.obj (setField fs k w)) x = jsGet (Js.obj fs) x := by
  induction fs with
  | nil =>
    have hkx : (k == x) = false := by
      simp only [beq_eq_false_iff_ne, ne_eq]
      exact fun he => hx he.symm
    simp [setField, jsGet, List.find?, hkx]
  | cons p t ih =>
    obtain ⟨a, b⟩ := p
    by_cases h : a == k
    · have ha : a = k := by simpa using h
      subst ha
      have hax : (a == x) = false := by
        simp only [beq_eq_false_iff_ne, ne_eq]
        exact fun he => hx he.symm
      rw [setField, if_pos (by simp), jsGet_obj_cons, if_neg (by simp [hax]),
        jsGet_obj_cons, if_neg (by simp [hax])]
    · rw [setField, if_neg h, jsGet_obj_cons, jsGet_obj_cons, ih]

/-- The per-value dispatch of the `generateNestedObjectSchema` loop as a
standalone function (source line 543): plain non-null non-array objects
recurse, everything else gets a primitive property schema. -/
def gnosChild (value : Js) : Js :=
  if jsTypeof value == "object" && !isArray value && !isNull value then
    generateNestedObjectSchema value
  else generatePropertySchema value

theorem gnosLoop_nil (w s : Js) : gnosLoop w [] s = s := by
  rw [gnosLoop.eq_def]

theorem gnosLoop_cons (w : Js) (key : String) (rest : List String) (s : Js) :
    gnosLoop w (key :: rest) s =
      gnosLoop w rest (objSet s key (gnosChild (jsGet w key))) := by
  rw [gnosLoop.eq_def]
  simp only [gnosChild, dite_eq_ite]

theorem gnos_eq (w : Js) :
    generateNestedObjectSchema w = gnosLoop w (objKeys w)
      (Js.obj [("type", Js.str "object"), ("additionalProperties", Js.bool false),
        ("required", Js.arr ((objKeys w).map Js.str))]) := by
  rw [generateNestedObjectSchema.eq_def]

theorem gnosLoop_obj (w : Js) (ks : List String) (fs : List (String × Js)) :
    ∃ gs, gnosLoop w ks (Js.obj fs) = Js.obj gs ∧
      ∀ x, x ∈ gs.map Prod.fst ↔ (x ∈ fs.map Prod.fst ∨ x ∈ ks) := by
  induction ks generalizing fs with
  | nil => exact ⟨fs, by rw [gnosLoop_nil], by simp⟩
  | cons key rest ih =>
    rw [gnosLoop_cons,
      show objSet (Js.obj fs) key (gnosChild (jsGet w key)) =
        Js.obj (setField fs key (gnosChild (jsGet w key))) from rfl]
    obtain ⟨gs, hg, hiff⟩ := ih (setField fs key (gnosChild (jsGet w key)))
    refine ⟨gs, hg, fun x => ?_⟩
    rw [hiff x, setField_keys]
    simp only [List.mem_cons]
    tauto

theorem jsGet_gnosLoop_not_mem (w : Js) (ks : List String) (fs : List (String × Js))
    (k : String) (hk : k ∉ ks) :
    jsGet (gnosLoop w ks (Js.obj fs)) k = jsGet (Js.obj fs) k := by
  induction ks generalizing fs with
  | nil => rw [gnosLoop_nil]
  | cons a rest ih =>
    rw [gnosLoop_cons,
      show objSet (Js.obj fs) a (gnosChild (jsGet w a)) =
        Js.obj (setField fs a (gnosChild (jsGet w a))) from rfl,
      ih _ (fun h => hk (List.mem_cons_of_mem _ h)),
      jsGet_setField_other _ _ _ _ (fun h => hk (by rw [h]; exact List.mem_cons_self a rest))]

theorem jsGet_gnosLoop_mem (w : Js) (ks : List String) (fs : List (String × Js))
    (k : String) (hk : k ∈ ks) (hnd : ks.Nodup) :
    jsGet (gnosLoop w ks (Js.obj fs)) k = gnosChild (jsGet w k) := by
  induction ks generalizing fs with
  | nil => cases hk
  | cons a rest ih =>
    rw [gnosLoop_cons,
      show objSet (Js.obj fs) a (gnosChild (jsGet w a)) =
        Js.obj (setField fs a (gnosChild (jsGet w a))) from rfl]
    rcases List.mem_cons.mp hk with h | h
    · subst h
      rw [jsGet_gnosLoop_not_mem _ _ _ _ (List.nodup_cons.mp hnd).1, jsGet_setField_same]
    · exact ih _ h (List.nodup_cons.mp hnd).2

theorem gnos_obj (fs : List (String × Js)) :
    ∃ gs, generateNestedObjectSchema (Js.obj fs) = Js.obj gs ∧
      ∀ x, x ∈ gs.map Prod.fst ↔
        (x = "type" ∨ x = "additionalProperties" ∨ x = "required" ∨
          x ∈ fs.map Prod.fst) := by
  rw [gnos_eq]
  obtain ⟨gs, hg, hiff⟩ := gnosLoop_obj (Js.obj fs) (objKeys (Js.obj fs)) _
  refine ⟨gs, hg, fun x => ?_⟩
  rw [hiff x]
  show x ∈ ["type", "additionalProperties", "required"] ∨ x ∈ fs.map Prod.fst ↔ _
  simp only [List.mem_cons, List.not_mem_nil, or_false]
  tauto

theorem gnos_truthy (fs : List (String × Js)) :
    truthy (generateNestedObjectSchema (Js.obj fs)) = true := by
  obtain ⟨gs, hg, _⟩ := gnos_obj fs
  rw [hg]
  rfl

theorem jsGet_gnos_type {fs : List (String × Js)} (h : goodFields fs = true) :
    jsGet (generateNestedObjectSchema (Js.obj fs)) "type" = Js.str "object" := by
  rw [gnos_eq, jsGet_gnosLoop_not_mem]
  · simp +decide [jsGet, List.find?]
  · exact goodFields_not_reserved h (by decide)

theorem jsGet_gnos_required {fs : List (String × Js)} (h : goodFields fs = true) :
    jsGet (generateNestedObjectSchema (Js.obj fs)) "required" =
      Js.arr ((fs.map Prod.fst).map Js.str) := by
  rw [gnos_eq, jsGet_gnosLoop_not_mem]
  · simp +decide [jsGet, List.find?]
    show List.map Js.str (fs.map Prod.fst) = _
    rw [List.map_map]
  · exact goodFields_not_reserved h (by decide)

theorem jsGet_gnos_absent {fs : List (String × Js)} (h : goodFields fs = true)
    (f : String) (hfr : f ∈ reservedKeys) (h1 : f ≠ "type")
    (h2 : f ≠ "additionalProperties") (h3 : f ≠ "required") :
    jsGet (generateNestedObjectSchema (Js.obj fs)) f = Js.undefined := by
  obtain ⟨gs, hg, hiff⟩ := gnos_obj fs
  rw [hg]
  apply jsGet_obj_of_not_mem
  intro hmem
  rcases (hiff f).mp hmem with hb | hb | hb | hb
  · exact h1 hb
  · exact h2 hb
  · exact h3 hb
  · exact goodFields_not_reserved h hfr hb

theorem validateInput_gnos {fs : List (String × Js)} (h : goodFields fs = true) :
    validateInput (generateNestedObjectSchema (Js.obj fs)) (Js.obj fs) =
      ⟨true, none⟩ := by
  have ht := jsGet_gnos_type h
  have h1 := jsGet_gnos_absent h "format" (by decide) (by decide) (by decide)
    (by decide)
  have h2 := jsGet_gnos_absent h "minLength" (by decide) (by decide) (by decide)
    (by decide)
  have h3 := jsGet_gnos_absent h "maxLength" (by decide) (by decide) (by decide)
    (by decide)
  have h4 := jsGet_gnos_absent h "minValue" (by decide) (by decide) (by decide)
    (by decide)
  have h5 := jsGet_gnos_absent h "maxValue" (by decide) (by decide) (by decide)
    (by decide)
  have h6 := jsGet_gnos_absent h "matchesPattern" (by decide) (by decide)
    (by decide) (by decide)
  rw [validateInput, if_pos (gnos_truthy fs)]
  rw [checks]
  rw [ht, h1, h2, h3, h4, h5, h6]
  simp [runChecks, truthy, isCorrectType, isObject]

theorem requiredList_gnos {fs : List (String × Js)} (h : goodFields fs = true) :
    requiredList (generateNestedObjectSchema (Js.obj fs)) =
      .ok ((fs.map Prod.fst).map Js.str) := by
  unfold requiredList
  rw [jsGet_gnos_required h]

theorem requiredList_genProp (v : Js) :
    requiredList (generatePropertySchema v) = .ok [] := by
  unfold requiredList generatePropertySchema
  by_cases h : jsTypeof v == "string" <;>
    simp +decide [h, jsGet, List.find?, truthy]

theorem additionalsOk_genProp_any (v : Js) :
    additionalsOk (generatePropertySchema v) = true := by
  unfold additionalsOk generatePropertySchema
  by_cases h : jsTypeof v == "string" <;> simp +decide [h, jsGet, List.find?]

/-- The required check of a generated nested node against the very object
it was generated from: every listed key is present. -/
theorem checkForRequiredKeysErrors_present (fs : List (String × Js)) (e : List Res) :
    checkForRequiredKeysErrors ((fs.map Prod.fst).map Js.str) (Js.obj fs) e =
      .ok e := by
  unfold checkForRequiredKeysErrors areRequiredKeysPresent
  cases fs with
  | nil => rfl
  | cons p t =>
    have h1 : jsInStrList (Js.str p.1) (objKeys (Js.obj (p :: t))) = true := by
      simp [jsInStrList, objKeys]
    have h2 : ((List.map (Js.str ∘ Prod.fst) t).all
        (fun k => jsInStrList k (objKeys (Js.obj (p :: t))))) = true := by
      rw [List.all_eq_true]
      intro x hx
      obtain ⟨q, hq, he⟩ := List.mem_map.mp hx
      subst he
      simp only [Function.comp_apply, jsInStrList, objKeys, List.map_cons]
      simp only [List.contains_cons, List.elem_eq_mem, Bool.or_eq_true, beq_iff_eq,
        decide_eq_true_eq]
      exact List.mem_cons_of_mem _ (List.mem_map.mpr ⟨q, hq, rfl⟩)
    simp [h1, h2]

/-- If every input key is also a schema-node key, the disallowed-properties
check pushes nothing, whatever the `additionalProperties` flag. -/
theorem checkForDisallowedProperties_sub (a b : List String) (e : List Res)
    (flag : Bool) (h : ∀ x ∈ a, x ∈ b) :
    checkForDisallowedProperties a b e flag = e := by
  unfold checkForDisallowedProperties
  cases flag
  · have hnil : findNonOverlappingElements a b = [] := by
      unfold findNonOverlappingElements
      rw [List.filter_eq_nil_iff]
      intro x hx
      simp [h x hx]
    simp [hnil]
  · simp

theorem gnosChild_obj (fs : List (String × Js)) :
    gnosChild (Js.obj fs) = generateNestedObjectSchema (Js.obj fs) := by
  simp +decide [gnosChild, jsTypeof, isArray, isNull]

theorem gnosChild_scalar {v : Js} (h : flatScalarOk v = true) :
    gnosChild v = generatePropertySchema v := by
  cases v with
  | str s => simp +decide [gnosChild, jsTypeof, isArray, isNull]
  | num n => simp +decide [gnosChild, jsTypeof, isArray, isNull]
  | bool b => simp +decide [gnosChild, jsTypeof, isArray, isNull]
  | null => simp [flatScalarOk] at h
  | undefined => simp [flatScalarOk] at h
  | nan => simp [flatScalarOk] at h
  | arr xs => simp [flatScalarOk] at h
  | obj l => simp [flatScalarOk] at h
  | regexp f => simp [flatScalarOk] at h

/-- A `goodVal` value is either a good object or a good scalar. -/
theorem goodVal_cases {v : Js} (h : goodVal v = true) :
    (∃ fs, v = Js.obj fs ∧ goodFields fs = true) ∨ flatScalarOk v = true := by
  cases v with
  | obj fs => exact Or.inl ⟨fs, rfl, by simpa [goodVal] using h⟩
  | str s => exact Or.inr (by simpa [goodVal] using h)
  | num n => exact Or.inr (by simpa [goodVal] using h)
  | bool b => exact Or.inr (by simpa [goodVal] using h)
  | null => exact Or.inr (by simpa [goodVal] using h)
  | undefined => exact Or.inr (by simpa [goodVal] using h)
  | nan => exact Or.inr (by simpa [goodVal] using h)
  | arr xs => exact Or.inr (by simpa [goodVal] using h)
  | regexp f => exact Or.inr (by simpa [goodVal] using h)

theorem genProp_truthy (v : Js) : truthy (generatePropertySchema v) = true := by
  unfold generatePropertySchema
  by_cases ht : jsTypeof v == "string" <;> simp [ht, truthy]

theorem gnosChild_truthy {v : Js} (h : goodVal v = true) :
    truthy (gnosChild v) = true := by
  rcases goodVal_cases h with ⟨fs, he, hf⟩ | hs
  · subst he
    rw [gnosChild_obj]
    exact gnos_truthy fs
  · rw [gnosChild_scalar hs]
    exact genProp_truthy v

/-- `validate` applied to a primitive property schema and the (scalar)
value it was generated from is a no-op: the schema node has no `required`
or `additionalProperties` fields and its keys (`type`, `minLength`) name
no property of a scalar input. -/
theorem validate_genProp_scalar {v : Js} (h : flatScalarOk v = true)
    (results errors : List Res) :
    validate (generatePropertySchema v) v results errors = .ok (results, errors) := by
  cases v with
  | str s =>
    simp +decide [validate, validateLoop, generatePropertySchema, requiredList,
      checkForRequiredKeysErrors, areRequiredKeysPresent, additionalsOk,
      checkForDisallowedProperties, jsGet, objKeys, List.find?, truthy, isDefined,
      requiredContains, jsTypeof]
  | num n =>
    simp +decide [validate, validateLoop, generatePropertySchema, requiredList,
      checkForRequiredKeysErrors, areRequiredKeysPresent, additionalsOk,
      checkForDisallowedProperties, jsGet, objKeys, List.find?, truthy, isDefined,
      requiredContains, jsTypeof]
  | bool b =>
    simp +decide [validate, validateLoop, generatePropertySchema, requiredList,
      checkForRequiredKeysErrors, areRequiredKeysPresent, additionalsOk,
      checkForDisallowedProperties, jsGet, objKeys, List.find?, truthy, isDefined,
      requiredContains, jsTypeof]
  | null => simp [flatScalarOk] at h
  | undefined => simp [flatScalarOk] at h
  | nan => simp [flatScalarOk] at h
  | arr xs => simp [flatScalarOk] at h
  | obj l => simp [flatScalarOk] at h
  | regexp f => simp [flatScalarOk] at h

/-- The Leaf Result of a good value against its generated child schema
succeeds. -/
theorem validateProperty_gnosChild {v : Js} (h : goodVal v = true) (m : String) :
    (validateProperty m (gnosChild v) v).success = true := by
  rcases goodVal_cases h with ⟨fs, he, hf⟩ | hs
  · subst he
    unfold validateProperty
    rw [gnosChild_obj, validateInput_gnos hf]
  · unfold validateProperty
    rw [gnosChild_scalar hs, genProp_validateInput hs]

theorem handleNestedObject_notObj {v : Js} (h : isObject v = false) (pk : Js)
    (results errors : List Res) :
    handleNestedObject v pk results errors = .ok (results, errors) := by
  rw [handleNestedObject.eq_def, h]
  simp

/-- `handleValidation` on a good value and its generated child schema:
only successful Leaf Results are appended. -/
theorem handleValidation_good {v : Js} (hv : goodVal v = true) (k : String)
    (results : List Res) :
    ∃ leafs, handleValidation k v (gnosChild v) results = results ++ leafs ∧
      ∀ x ∈ leafs, x.success = true := by
  rcases goodVal_cases hv with ⟨fs, he, hf⟩ | hs
  · subst he
    unfold handleValidation
    rw [show isArray (Js.obj fs) = false from rfl, show isObject (Js.obj fs) = true
      from rfl]
    simp only [Bool.false_and, Bool.false_eq_true, if_false, if_true]
    refine ⟨validateProperty k (gnosChild (Js.obj fs)) (Js.obj fs) ::
      (objKeys (Js.obj fs)).map (fun innerKey =>
        validateProperty innerKey (jsGet (gnosChild (Js.obj fs)) innerKey)
          (jsGet (Js.obj fs) innerKey)), by simp, ?_⟩
    intro x hx
    rcases List.mem_cons.mp hx with hx | hx
    · subst hx
      exact validateProperty_gnosChild hv k
    · obtain ⟨m, hm, he⟩ := List.mem_map.mp hx
      subst he
      obtain ⟨⟨m2, u⟩, hmu, he2⟩ := List.mem_map.mp hm
      cases he2
      have hu : jsGet (Js.obj fs) m2 = u := jsGet_obj_of_mem (goodFields_nodup hf) hmu
      have hgu : goodVal u = true := (goodFields_val hf hmu).2
      have hCm : jsGet (gnosChild (Js.obj fs)) m2 = gnosChild (jsGet (Js.obj fs) m2) := by
        rw [gnosChild_obj, gnos_eq]
        exact jsGet_gnosLoop_mem _ _ _ _ (List.mem_map.mpr ⟨(m2, u), hmu, rfl⟩)
          (goodFields_nodup hf)
      rw [hCm, hu]
      exact validateProperty_gnosChild hgu m2
  · rw [handleValidation_scalar hs]
    refine ⟨[validateProperty k (gnosChild v) v], rfl, ?_⟩
    intro x hx
    rcases List.mem_cons.mp hx with hx | hx
    · subst hx
      exact validateProperty_gnosChild hv k
    · cases hx

/-- The inner disallowed-properties check of a good value against its
generated child schema pushes nothing. -/
theorem disallowed_gnosChild {v : Js} (hv : goodVal v = true) (e : List Res) :
    checkForDisallowedProperties (objKeys v) (objKeys (gnosChild v)) e
      (additionalsOk (gnosChild v)) = e := by
  rcases goodVal_cases hv with ⟨fs, he, hf⟩ | hs
  · subst he
    apply checkForDisallowedProperties_sub
    intro x hx
    rw [gnosChild_obj]
    obtain ⟨gs, hg, hiff⟩ := gnos_obj fs
    rw [hg]
    show x ∈ gs.map Prod.fst
    exact (hiff x).mpr (Or.inr (Or.inr (Or.inr hx)))
  · rw [gnosChild_scalar hs, additionalsOk_genProp_any]
    rfl

/-- The nested-recursion loop over a good object: every recursive
`validate` call (scalar or smaller good object) only appends successful
results and leaves the error accumulator unchanged. -/
theorem nestedLoop_good (fs : List (String × Js)) (hg : goodFields fs = true)
    (IH : ∀ gs2 : List (String × Js),
      Js.size (Js.obj gs2) < Js.size (Js.obj fs) → goodFields gs2 = true →
      ∀ r e : List Res, ∃ d,
        validate (generateNestedObjectSchema (Js.obj gs2)) (Js.obj gs2) r e =
          Except.ok (r ++ d, e) ∧ ∀ x ∈ d, x.success = true) :
    ∀ ms, (∀ m ∈ ms, m ∈ fs.map Prod.fst) →
    ∀ r e, ∃ d,
      nestedLoop (Js.obj fs) (generateNestedObjectSchema (Js.obj fs)) ms r e =
        Except.ok (r ++ d, e) ∧ ∀ x ∈ d, x.success = true := by
  intro ms
  induction ms with
  | nil =>
    intro _ r e
    refine ⟨[], ?_, by simp⟩
    rw [nestedLoop.eq_def]
    simp
  | cons m rest ih =>
    intro hms r e
    have hm : m ∈ fs.map Prod.fst := hms m (List.mem_cons_self _ _)
    have hrest : ∀ x ∈ rest, x ∈ fs.map Prod.fst :=
      fun x hx => hms x (List.mem_cons_of_mem _ hx)
    obtain ⟨⟨m2, v⟩, hmv, he⟩ := List.mem_map.mp hm
    cases he
    have hv : jsGet (Js.obj fs) m2 = v := jsGet_obj_of_mem (goodFields_nodup hg) hmv
    have hgv : goodVal v = true := (goodFields_val hg hmv).2
    have hCm : jsGet (generateNestedObjectSchema (Js.obj fs)) m2 =
        gnosChild (jsGet (Js.obj fs) m2) := by
      rw [gnos_eq]
      exact jsGet_gnosLoop_mem _ _ _ _ hm (goodFields_nodup hg)
    rw [nestedLoop.eq_def]
    simp only [hCm, hv, gnosChild_truthy hgv, Bool.true_and, dite_eq_ite]
    by_cases htv : truthy v = true
    · rw [if_pos htv]
      rcases goodVal_cases hgv with ⟨gs2, hev, hgf2⟩ | hs
      · have hlt : Js.size v < Js.size (Js.obj fs) := by
          rw [← hv]
          apply truthy_jsGet_size_lt
          rw [hv]
          exact htv
        obtain ⟨d1, hval, hs1⟩ := IH gs2 (hev ▸ hlt) hgf2 r e
        rw [hev, gnosChild_obj, hval]
        obtain ⟨d2, hloop, hs2⟩ := ih hrest (r ++ d1) e
        refine ⟨d1 ++ d2, ?_, ?_⟩
        · simp only []
          rw [hloop, List.append_assoc]
        · intro x hx
          rcases List.mem_append.mp hx with hx | hx
          · exact hs1 x hx
          · exact hs2 x hx
      · rw [gnosChild_scalar hs, validate_genProp_scalar hs]
        exact ih hrest r e
    · rw [if_neg htv]
      exact ih hrest r e

/-- The required check performed for a required key against its good value
and generated child schema reports nothing. -/
theorem step1_gnosChild {v : Js} (hgv : goodVal v = true) :
    ∃ ir, requiredList (gnosChild v) = Except.ok ir ∧
      ∀ e : List Res, checkForRequiredKeysErrors ir v e = Except.ok e := by
  rcases goodVal_cases hgv with ⟨gs2, hev, hgf2⟩ | hs
  · subst hev
    exact ⟨_, by rw [gnosChild_obj, requiredList_gnos hgf2],
      fun e => checkForRequiredKeysErrors_present gs2 e⟩
  · exact ⟨[], by rw [gnosChild_scalar hs, requiredList_genProp],
      fun e => checkForRequiredKeysErrors_of_empty v e⟩

/-- The schema-key loop of `validate` over a generated nested node and the
good object it was generated from: metadata keys are skipped (their input
values are undefined), sample keys pass their required check and produce
only successful Leaf Results. -/
theorem gnosKeysLoop_good (fs : List (String × Js)) (hg : goodFields fs = true)
    (IH : ∀ gs2 : List (String × Js),
      Js.size (Js.obj gs2) < Js.size (Js.obj fs) → goodFields gs2 = true →
      ∀ r e : List Res, ∃ d,
        validate (generateNestedObjectSchema (Js.obj gs2)) (Js.obj gs2) r e =
          Except.ok (r ++ d, e) ∧ ∀ x ∈ d, x.success = true) :
    ∀ ks r e, ∃ d,
      validateLoop (generateNestedObjectSchema (Js.obj fs)) (Js.obj fs)
        ((fs.map Prod.fst).map Js.str) ks r e = Except.ok (r ++ d, e) ∧
      ∀ x ∈ d, x.success = true := by
  intro ks
  induction ks with
  | nil =>
    intro r e
    refine ⟨[], ?_, by simp⟩
    rw [validateLoop.eq_1]
    simp
  | cons k rest ih =>
    intro r e
    rw [validateLoop.eq_def]
    simp only []
    by_cases hk : k ∈ fs.map Prod.fst
    · -- a sample key of the object
      have hkreq : requiredContains ((fs.map Prod.fst).map Js.str) k = true := by
        unfold requiredContains
        rw [List.any_eq_true]
        exact ⟨Js.str k, List.mem_map.mpr ⟨k, hk, rfl⟩, by simp⟩
      have hknr : (k != "required") = true := by
        have hnr := goodFields_not_reserved hg
          (show "required" ∈ reservedKeys by decide)
        simp only [bne_iff_ne, ne_eq]
        intro he
        rw [he] at hk
        exact hnr hk
      obtain ⟨p, hmv, he⟩ := List.mem_map.mp hk
      obtain ⟨k2, v⟩ := p
      have he2 : k2 = k := he
      subst he2
      have hv : jsGet (Js.obj fs) k2 = v := jsGet_obj_of_mem (goodFields_nodup hg) hmv
      have hgv : goodVal v = true := (goodFields_val hg hmv).2
      have hCk : jsGet (generateNestedObjectSchema (Js.obj fs)) k2 =
          gnosChild v := by
        rw [gnos_eq, show objKeys (Js.obj fs) = fs.map Prod.fst from rfl,
          jsGet_gnosLoop_mem _ _ _ _ hk (goodFields_nodup hg), hv]
      obtain ⟨ir, hrl, hck⟩ := step1_gnosChild hgv
      simp only [hkreq, hknr, Bool.and_self, if_true, hCk, hv, hrl, hck e]
      by_cases hd : isDefined v = true
      · rw [if_pos hd]
        obtain ⟨leafs, hhv, hls⟩ := handleValidation_good hgv k2 r
        rw [hhv, disallowed_gnosChild hgv]
        rcases goodVal_cases hgv with ⟨gs2, hev, hgf2⟩ | hs
        · -- nested object: recurse through handleNestedObject
          have hlt : Js.size (Js.obj gs2) < Js.size (Js.obj fs) := by
            rw [← hev, ← hv]
            apply truthy_jsGet_size_lt
            rw [hv, hev]
            rfl
          subst hev
          rw [gnosChild_obj, handleNestedObject.eq_def,
            show isObject (Js.obj gs2) = true from rfl]
          simp only [if_true]
          have hsub : ∀ m ∈ getNestedObjects (Js.obj gs2), m ∈ gs2.map Prod.fst := by
            intro m hm
            unfold getNestedObjects at hm
            exact (List.mem_filter.mp hm).1
          obtain ⟨d1, hnl, hs1⟩ := nestedLoop_good gs2 hgf2
            (fun gs3 h3 hg3 => IH gs3 (Nat.lt_trans h3 hlt) hg3)
            (getNestedObjects (Js.obj gs2)) hsub (r ++ leafs) e
          rw [hnl]
          simp only []
          obtain ⟨d2, hloop, hs2⟩ := ih (r ++ leafs ++ d1) e
          refine ⟨leafs ++ d1 ++ d2, ?_, ?_⟩
          · rw [hloop]
            rw [List.append_assoc, List.append_assoc, List.append_assoc]
          · intro x hx
            rcases List.mem_append.mp hx with hx | hx
            · rcases List.mem_append.mp hx with hx | hx
              · exact hls x hx
              · exact hs1 x hx
            · exact hs2 x hx
        · -- scalar: no nested walk
          rw [gnosChild_scalar hs, handleNestedObject_notObj (scalar_not_object hs)]
          simp only []
          obtain ⟨d2, hloop, hs2⟩ := ih (r ++ leafs) e
          refine ⟨leafs ++ d2, ?_, ?_⟩
          · rw [hloop, List.append_assoc]
          · intro x hx
            rcases List.mem_append.mp hx with hx | hx
            · exact hls x hx
            · exact hs2 x hx
      · rw [if_neg hd]
        exact ih r e
    · -- a metadata key (`type`, `additionalProperties`, `required`): skipped
      have hkreq : requiredContains ((fs.map Prod.fst).map Js.str) k = false := by
        unfold requiredContains
        rw [List.any_eq_false]
        intro x hx
        obtain ⟨s, hs, he⟩ := List.mem_map.mp hx
        subst he
        simp only [beq_iff_eq]
        intro he2
        rw [he2] at hs
        exact hk hs
      have hjv : jsGet (Js.obj fs) k = Js.undefined := jsGet_obj_of_not_mem hk
      simp only [hkreq, Bool.false_and, Bool.false_eq_true, if_false, hjv,
        show isDefined Js.undefined = false from rfl]
      exact ih r e

/-- `validate` on a generated nested node and the good object it came
from: the required and disallowed checks at this level pass, the key loop
appends only successful Leaf Results, and the error accumulator comes back
unchanged.  Proved by strong induction on the object size. -/
theorem validate_gnos_good (n : Nat) :
    ∀ fs : List (String × Js), Js.size (Js.obj fs) ≤ n → goodFields fs = true →
    ∀ r e : List Res, ∃ d,
      validate (generateNestedObjectSchema (Js.obj fs)) (Js.obj fs) r e =
        Except.ok (r ++ d, e) ∧ ∀ x ∈ d, x.success = true := by
  induction n with
  | zero =>
    intro fs hsz hg r e
    exact absurd hsz (by have := Js.size_pos (Js.obj fs); omega)
  | succ n ihn =>
    intro fs hsz hg r e
    have IH : ∀ gs2 : List (String × Js),
        Js.size (Js.obj gs2) < Js.size (Js.obj fs) → goodFields gs2 = true →
        ∀ r e : List Res, ∃ d,
          validate (generateNestedObjectSchema (Js.obj gs2)) (Js.obj gs2) r e =
            Except.ok (r ++ d, e) ∧ ∀ x ∈ d, x.success = true :=
      fun gs2 hlt hg2 => ihn gs2 (by omega) hg2
    rw [validate.eq_def]
    simp only [requiredList_gnos hg, checkForRequiredKeysErrors_present fs e]
    have hdis : checkForDisallowedProperties (objKeys (Js.obj fs))
        (objKeys (generateNestedObjectSchema (Js.obj fs))) e
        (additionalsOk (generateNestedObjectSchema (Js.obj fs))) = e := by
      apply checkForDisallowedProperties_sub
      intro x hx
      obtain ⟨gs, hgob, hiff⟩ := gnos_obj fs
      rw [hgob]
      show x ∈ gs.map Prod.fst
      exact (hiff x).mpr (Or.inr (Or.inr (Or.inr hx)))
    rw [hdis]
    exact gnosKeysLoop_good fs hg IH
      (objKeys (generateNestedObjectSchema (Js.obj fs))) r e

theorem homogeneousTypes_all {xs : List Js} (h : homogeneousTypes xs = true)
    {a : Js} (ha : a ∈ xs) : ∀ b ∈ xs, jsTypeof b = jsTypeof a := by
  cases xs with
  | nil => cases ha
  | cons x t =>
    simp only [homogeneousTypes] at h
    rw [List.all_eq_true] at h
    have hx : ∀ y ∈ x :: t, jsTypeof y = jsTypeof x := by
      intro y hy
      rcases List.mem_cons.mp hy with h1 | h1
      · rw [h1]
      · simpa using h y h1
    intro b hb
    rw [hx b hb, hx a ha]

theorem genArray_nil {xs : List Js} (h : xs.filter truthy = []) :
    generateArraySchema (Js.arr xs) = Js.obj [("type", Js.str "array")] := by
  unfold generateArraySchema
  simp only [arrayElems, h]

theorem genArray_cons {xs : List Js} {c : Js} {cl : List Js}
    (h : xs.filter truthy = c :: cl) (hsc : flatScalarOk c = true)
    (hhom : ((c :: cl).all (fun e2 => jsTypeof e2 == jsTypeof c)) = true) :
    generateArraySchema (Js.arr xs) =
      Js.obj [("type", Js.str "array"), ("items", generatePropertySchema c)] := by
  have hobj : (jsTypeof c == "object" && !isArray c) = false := by
    cases c with
    | str s => rfl
    | num n => rfl
    | bool b => rfl
    | null => simp [flatScalarOk] at hsc
    | undefined => simp [flatScalarOk] at hsc
    | nan => simp [flatScalarOk] at hsc
    | arr ys => simp [flatScalarOk] at hsc
    | obj l => simp [flatScalarOk] at hsc
    | regexp f => simp [flatScalarOk] at hsc
  unfold generateArraySchema
  simp only [arrayElems, h, hhom, if_true, hobj, Bool.false_eq_true, if_false]

theorem genProp_validateInput_sameType {c e2 : Js} (hc : flatScalarOk c = true)
    (he : flatScalarOk e2 = true) (ht : jsTypeof e2 = jsTypeof c) :
    validateInput (generatePropertySchema c) e2 = ⟨true, none⟩ := by
  have hgp : generatePropertySchema c = generatePropertySchema e2 := by
    unfold generatePropertySchema
    rw [ht]
  rw [hgp]
  exact genProp_validateInput he

theorem itemsNotNull_typeArrayItems (c : Js) :
    itemsNotNull (Js.obj [("type", Js.str "array"),
      ("items", generatePropertySchema c)]) = true := by
  unfold itemsNotNull generatePropertySchema
  by_cases h : jsTypeof c == "string" <;> simp +decide [h, jsGet, List.find?]

theorem additionalsOk_genArray (xs : List Js) :
    additionalsOk (generateArraySchema (Js.arr xs)) = true := by
  cases hclean : xs.filter truthy with
  | nil =>
    rw [genArray_nil hclean]
    rfl
  | cons c cl =>
    unfold generateArraySchema
    simp only [arrayElems, hclean]
    by_cases h1 : ((c :: cl).all (fun element => jsTypeof element == jsTypeof c)) = true
    · rw [if_pos h1]
      by_cases h2 : (jsTypeof c == "object" && !isArray c) = true
      · rw [if_pos h2]
        rfl
      · rw [if_neg h2]
        unfold additionalsOk generatePropertySchema
        by_cases h3 : jsTypeof c == "string" <;> simp +decide [h3, jsGet, List.find?]
    · rw [if_neg h1]
      rfl

theorem checkForDisallowedProperties_true (a b : List String) (e : List Res) :
    checkForDisallowedProperties a b e true = e := rfl

/-- The Leaf Results of a homogeneous scalar array against its generated
array schema all succeed: the array itself passes the `array` type check,
and every element passes the checks of the inferred `items` schema. -/
theorem handleValidation_goodArray {xs : List Js} (hall : xs.all flatScalarOk = true)
    (hhom : homogeneousTypes xs = true) (k : String) (r : List Res) :
    ∃ leafs, handleValidation k (Js.arr xs) (generateArraySchema (Js.arr xs)) r =
      r ++ leafs ∧ ∀ x ∈ leafs, x.success = true := by
  cases hclean : xs.filter truthy with
  | nil =>
    rw [genArray_nil hclean]
    unfold handleValidation
    rw [show itemsNotNull (Js.obj [("type", Js.str "array")]) = false from rfl]
    simp only [Bool.and_false, Bool.false_eq_true, if_false,
      show isObject (Js.arr xs) = false from rfl]
    refine ⟨[validateProperty k (Js.obj [("type", Js.str "array")]) (Js.arr xs)],
      rfl, ?_⟩
    intro x hx
    rcases List.mem_cons.mp hx with hx | hx
    · subst hx
      unfold validateProperty
      rw [show validateInput (Js.obj [("type", Js.str "array")]) (Js.arr xs) =
        ⟨true, none⟩ by
          simp +decide [validateInput, checks, runChecks, jsGet, List.find?, truthy,
            isCorrectType, isArray]]
    · cases hx
  | cons c cl =>
    have hcx : c ∈ xs := List.mem_of_mem_filter (hclean ▸ List.mem_cons_self c cl)
    rw [List.all_eq_true] at hall
    have hsc : flatScalarOk c = true := hall c hcx
    have hhomc : ((c :: cl).all (fun e2 => jsTypeof e2 == jsTypeof c)) = true := by
      rw [List.all_eq_true]
      intro y hy
      have hyx : y ∈ xs := List.mem_of_mem_filter (hclean ▸ hy)
      simp [homogeneousTypes_all hhom hcx y hyx]
    rw [genArray_cons hclean hsc hhomc]
    unfold handleValidation
    rw [show isArray (Js.arr xs) = true from rfl, itemsNotNull_typeArrayItems c]
    simp only [Bool.and_self, if_true]
    have hitems : jsGet (Js.obj [("type", Js.str "array"),
        ("items", generatePropertySchema c)]) "items" = generatePropertySchema c := by
      simp +decide [jsGet, List.find?]
    rw [hitems, show arrayElems (Js.arr xs) = xs from rfl]
    refine ⟨validateProperty k (Js.obj [("type", Js.str "array"),
        ("items", generatePropertySchema c)]) (Js.arr xs) ::
      xs.map (fun arrayItem => validateProperty k (generatePropertySchema c) arrayItem),
      by simp, ?_⟩
    intro x hx
    rcases List.mem_cons.mp hx with hx | hx
    · subst hx
      unfold validateProperty
      rw [show validateInput (Js.obj [("type", Js.str "array"),
          ("items", generatePropertySchema c)]) (Js.arr xs) = ⟨true, none⟩ by
        have h1 : jsGet (Js.obj [("type", Js.str "array"),
            ("items", generatePropertySchema c)]) "type" = Js.str "array" := by
          simp +decide [jsGet, List.find?]
        have hconds : ∀ f : String, f ≠ "type" → f ≠ "items" →
            jsGet (Js.obj [("type", Js.str "array"),
              ("items", generatePropertySchema c)]) f = Js.undefined := by
          intro f hf1 hf2
          apply jsGet_obj_of_not_mem
          intro hmem
          simp only [List.map_cons, List.map_nil, List.mem_cons,
            List.not_mem_nil] at hmem
          rcases hmem with h | h | h
          · exact hf1 h
          · exact hf2 h
          · exact h
        rw [validateInput,
          if_pos (show truthy (Js.obj [("type", Js.str "array"),
            ("items", generatePropertySchema c)]) = true from rfl),
          checks, h1,
          hconds "format" (by decide) (by decide),
          hconds "minLength" (by decide) (by decide),
          hconds "maxLength" (by decide) (by decide),
          hconds "minValue" (by decide) (by decide),
          hconds "maxValue" (by decide) (by decide),
          hconds "matchesPattern" (by decide) (by decide)]
        simp [runChecks, truthy, isCorrectType, isArray]]
    · obtain ⟨el, hel, he⟩ := List.mem_map.mp hx
      subst he
      unfold validateProperty
      rw [genProp_validateInput_sameType hsc (hall el hel)
        (homogeneousTypes_all hhom hcx el hel)]

theorem schemaFromChild_arr (xs : List Js) :
    schemaFromChild (Js.arr xs) = generateArraySchema (Js.arr xs) := by
  unfold schemaFromChild
  rw [if_pos (show isArray (Js.arr xs) = true from rfl)]

theorem schemaFromChild_objCase (gs : List (String × Js)) :
    schemaFromChild (Js.obj gs) = generateNestedObjectSchema (Js.obj gs) := by
  unfold schemaFromChild
  simp +decide [isArray, jsTypeof, isNull]

theorem schemaFromChild_isObj (v : Js) :
    ∃ gs, schemaFromChild v = Js.obj gs := by
  cases v with
  | arr xs =>
    rw [schemaFromChild_arr]
    cases hclean : xs.filter truthy with
    | nil => exact ⟨_, genArray_nil hclean⟩
    | cons c cl =>
      unfold generateArraySchema
      simp only [arrayElems, hclean]
      by_cases h1 : ((c :: cl).all (fun element => jsTypeof element == jsTypeof c)) = true
      · rw [if_pos h1]
        by_cases h2 : (jsTypeof c == "object" && !isArray c) = true
        · rw [if_pos h2]
          exact ⟨_, rfl⟩
        · rw [if_neg h2]
          exact ⟨_, rfl⟩
      · rw [if_neg h1]
        exact ⟨_, rfl⟩
  | obj gs =>
    rw [schemaFromChild_objCase]
    obtain ⟨gs2, hg, _⟩ := gnos_obj gs
    exact ⟨gs2, hg⟩
  | null =>
    refine ⟨[("type", Js.str "object")], ?_⟩
    simp +decide [schemaFromChild, isArray, jsTypeof, isNull, generatePropertySchema]
  | undefined =>
    refine ⟨[("type", Js.str "undefined")], ?_⟩
    simp +decide [schemaFromChild, isArray, jsTypeof, isNull, generatePropertySchema]
  | nan =>
    refine ⟨[("type", Js.str "number")], ?_⟩
    simp +decide [schemaFromChild, isArray, jsTypeof, isNull, generatePropertySchema]
  | str s =>
    refine ⟨[("type", Js.str "string"), ("minLength", Js.num 1)], ?_⟩
    simp +decide [schemaFromChild, isArray, jsTypeof, isNull, generatePropertySchema]
  | num n =>
    refine ⟨[("type", Js.str "number")], ?_⟩
    simp +decide [schemaFromChild, isArray, jsTypeof, isNull, generatePropertySchema]
  | bool b =>
    refine ⟨[("type", Js.str "boolean")], ?_⟩
    simp +decide [schemaFromChild, isArray, jsTypeof, isNull, generatePropertySchema]
  | regexp f =>
    rw [show schemaFromChild (Js.regexp f) = generateNestedObjectSchema (Js.regexp f) by
      simp +decide [schemaFromChild, isArray, jsTypeof, isNull]]
    rw [gnos_eq]
    exact ⟨_, by rw [show objKeys (Js.regexp f) = [] from rfl, gnosLoop_nil]⟩

theorem schemaFromChild_objChild (gs : List (String × Js)) :
    schemaFromChild (Js.obj gs) = gnosChild (Js.obj gs) :=
  (schemaFromChild_objCase gs).trans (gnosChild_obj gs).symm

/-- The top-level key loop of the round trip: the inferred root node has an
empty effective required list (it sits as a sibling of `properties`), so
every key is processed unconditionally; scalar, array and nested-object
sample values each contribute only successful Leaf Results. -/
theorem C5topLoop (fs : List (String × Js)) (hs : goodSample fs = true) :
    ∀ ks r e, ∃ d,
      validateLoop (Js.obj (fs.map (fun p => (p.1, schemaFromChild p.2))))
        (Js.obj fs) [] ks r e = Except.ok (r ++ d, e) ∧
      ∀ x ∈ d, x.success = true := by
  have hnodup : (fs.map Prod.fst).Nodup := goodSample_nodup hs
  have hnodup2 : ((fs.map (fun p => (p.1, schemaFromChild p.2))).map Prod.fst).Nodup := by
    simpa [List.map_map, Function.comp] using hnodup
  intro ks
  induction ks with
  | nil =>
    intro r e
    refine ⟨[], ?_, by simp⟩
    rw [validateLoop.eq_1]
    simp
  | cons k rest ih =>
    intro r e
    rw [validateLoop.eq_def]
    simp only [requiredContains, List.any_nil, Bool.false_and, Bool.false_eq_true,
      if_false]
    by_cases hk : k ∈ fs.map Prod.fst
    · obtain ⟨p, hmv, he⟩ := List.mem_map.mp hk
      obtain ⟨k2, v⟩ := p
      have he2 : k2 = k := he
      subst he2
      have hv : jsGet (Js.obj fs) k2 = v := jsGet_obj_of_mem hnodup hmv
      have hP : jsGet (Js.obj (fs.map (fun p => (p.1, schemaFromChild p.2)))) k2 =
          schemaFromChild v :=
        jsGet_obj_of_mem hnodup2 (List.mem_map.mpr ⟨(k2, v), hmv, rfl⟩)
      have hgv : goodTop v = true := (goodSample_val hs hmv).2
      simp only [hP, hv]
      by_cases hd : isDefined v = true
      · rw [if_pos hd]
        cases v with
        | obj gs2 =>
          have hgf2 : goodFields gs2 = true := by
            simpa [goodTop, goodVal] using hgv
          have hgv2 : goodVal (Js.obj gs2) = true := by
            simpa [goodVal] using hgf2
          rw [schemaFromChild_objChild]
          obtain ⟨leafs, hhv, hls⟩ := handleValidation_good hgv2 k2 r
          rw [hhv, disallowed_gnosChild hgv2, gnosChild_obj, handleNestedObject.eq_def,
            show isObject (Js.obj gs2) = true from rfl]
          simp only [if_true]
          have hsub : ∀ m ∈ getNestedObjects (Js.obj gs2), m ∈ gs2.map Prod.fst := by
            intro m hm
            unfold getNestedObjects at hm
            exact (List.mem_filter.mp hm).1
          obtain ⟨d1, hnl, hs1⟩ := nestedLoop_good gs2 hgf2
            (fun gs3 h3 hg3 => validate_gnos_good (Js.size (Js.obj gs3)) gs3
              (Nat.le_refl _) hg3)
            (getNestedObjects (Js.obj gs2)) hsub (r ++ leafs) e
          rw [hnl]
          simp only []
          obtain ⟨d2, hloop, hs2⟩ := ih (r ++ leafs ++ d1) e
          refine ⟨leafs ++ d1 ++ d2, ?_, ?_⟩
          · rw [hloop]
            rw [List.append_assoc, List.append_assoc, List.append_assoc]
          · intro x hx
            rcases List.mem_append.mp hx with hx | hx
            · rcases List.mem_append.mp hx with hx | hx
              · exact hls x hx
              · exact hs1 x hx
            · exact hs2 x hx
        | arr xs =>
          have hax : (xs.all flatScalarOk && homogeneousTypes xs) = true := by
            simpa [goodTop] using hgv
          rw [Bool.and_eq_true] at hax
          rw [schemaFromChild_arr]
          obtain ⟨leafs, hhv, hls⟩ := handleValidation_goodArray hax.1 hax.2 k2 r
          rw [hhv, additionalsOk_genArray, checkForDisallowedProperties_true,
            handleNestedObject_notObj (show isObject (Js.arr xs) = false from rfl)]
          simp only []
          obtain ⟨d2, hloop, hs2⟩ := ih (r ++ leafs) e
          refine ⟨leafs ++ d2, ?_, ?_⟩
          · rw [hloop, List.append_assoc]
          · intro x hx
            rcases List.mem_append.mp hx with hx | hx
            · exact hls x hx
            · exact hs2 x hx
        | str s2 =>
          have hsc : flatScalarOk (Js.str s2) = true := by
            simpa [goodTop, goodVal] using hgv
          rw [schemaFromChild_scalar hsc, handleValidation_scalar hsc,
            additionalsOk_genProp_any, checkForDisallowedProperties_true,
            handleNestedObject_scalar hsc]
          simp only []
          obtain ⟨d2, hloop, hs2⟩ :=
            ih (r ++ [validateProperty k2 (generatePropertySchema (Js.str s2))
              (Js.str s2)]) e
          refine ⟨validateProperty k2 (generatePropertySchema (Js.str s2))
              (Js.str s2) :: d2, ?_, ?_⟩
          · rw [hloop]
            simp
          · intro x hx
            rcases List.mem_cons.mp hx with hx | hx
            · subst hx
              unfold validateProperty
              rw [genProp_validateInput hsc]
            · exact hs2 x hx
        | num n =>
          have hsc : flatScalarOk (Js.num n) = true := by
            simpa [goodTop, goodVal] using hgv
          rw [schemaFromChild_scalar hsc, handleValidation_scalar hsc,
            additionalsOk_genProp_any, checkForDisallowedProperties_true,
            handleNestedObject_scalar hsc]
          simp only []
          obtain ⟨d2, hloop, hs2⟩ :=
            ih (r ++ [validateProperty k2 (generatePropertySchema (Js.num n))
              (Js.num n)]) e
          refine ⟨validateProperty k2 (generatePropertySchema (Js.num n))
              (Js.num n) :: d2, ?_, ?_⟩
          · rw [hloop]
            simp
          · intro x hx
            rcases List.mem_cons.mp hx with hx | hx
            · subst hx
              unfold validateProperty
              rw [genProp_validateInput hsc]
            · exact hs2 x hx
        | bool b =>
          have hsc : flatScalarOk (Js.bool b) = true := by
            simpa [goodTop, goodVal] using hgv
          rw [schemaFromChild_scalar hsc, handleValidation_scalar hsc,
            additionalsOk_genProp_any, checkForDisallowedProperties_true,
            handleNestedObject_scalar hsc]
          simp only []
          obtain ⟨d2, hloop, hs2⟩ :=
            ih (r ++ [validateProperty k2 (generatePropertySchema (Js.bool b))
              (Js.bool b)]) e
          refine ⟨validateProperty k2 (generatePropertySchema (Js.bool b))
              (Js.bool b) :: d2, ?_, ?_⟩
          · rw [hloop]
            simp
          · intro x hx
            rcases List.mem_cons.mp hx with hx | hx
            · subst hx
              unfold validateProperty
              rw [genProp_validateInput hsc]
            · exact hs2 x hx
        | null => simp [goodTop, goodVal, flatScalarOk] at hgv
        | undefined => simp [goodTop, goodVal, flatScalarOk] at hgv
        | nan => simp [goodTop, goodVal, flatScalarOk] at hgv
        | regexp f => simp [goodTop, goodVal, flatScalarOk] at hgv
      · rw [if_neg hd]
        exact ih r e
    · have hPk : jsGet (Js.obj (fs.map (fun p => (p.1, schemaFromChild p.2)))) k =
          Js.undefined := by
        apply jsGet_obj_of_not_mem
        intro hmem
        apply hk
        simpa [List.map_map, Function.comp] using hmem
      have hvk : jsGet (Js.obj fs) k = Js.undefined := jsGet_obj_of_not_mem hk
      simp only [hPk, hvk, show isDefined Js.undefined = false from rfl,
        Bool.false_eq_true, if_false]
      exact ih r e

/-- C5 counterexample: the sample `{s: ""}` has no null/undefined leaves
and no arrays at all, yet the round trip fails: string inference adds
`minLength: 1`, and the empty string is treated as present and fails that
check. -/
theorem C5_counterexample :
    test (schemaFrom (Js.obj [("s", Js.str "")])) (Js.obj [("s", Js.str "")]) =
      .ok ⟨[⟨"s", Js.str "", false, "Length too short"⟩], false⟩ := by
  simp +decide [test, validate, validateLoop, handleNestedObject, nestedLoop,
      jsGet, objKeys, requiredList, checkForRequiredKeysErrors, areRequiredKeysPresent,
      additionalsOk, checkForDisallowedProperties, findNonOverlappingElements,
      missingRequiredKeys, requiredKeyError, jsInStrList, jsJoin, arrayJoinElem, truthy,
      isDefined, requiredContains, compileErrors, isSuccessful, sq, List.find?, List.filter,
      handleValidation, validateProperty, validateInput, runChecks, checks, isCorrectType,
      isObject, isArray, itemsNotNull, arrayElems, getNestedObjects,
      keyToIndex, keyToIndexAux, decDigitVal,
      schemaFrom, schemaFromChild, generatePropertySchema, jsTypeof, isNull, jsNum, jsToStr,
      isMinimumLength]

/-- C5 amended: the schema inferred by `schemaFrom` accepts the very
sample it was inferred from, for every sample object whose keys are
pairwise distinct and not named `required`, and whose values are non-empty
strings, numbers, booleans, plain nested objects of the same shape (keys
additionally avoiding the reserved schema keywords), or arrays of scalars
of one shared type. -/
theorem C5_roundtrip (fs : List (String × Js)) (h : goodSample fs = true) :
    test (schemaFrom (Js.obj fs)) (Js.obj fs) = .ok ⟨[], true⟩ := by
  have hP : jsGet (schemaFrom (Js.obj fs)) "properties" =
      Js.obj (fs.map (fun p => (p.1, schemaFromChild p.2))) := by
    show Js.obj ((objKeys (Js.obj fs)).map
      (fun key => (key, schemaFromChild (jsGet (Js.obj fs) key)))) = _
    rw [show objKeys (Js.obj fs) = fs.map Prod.fst from rfl, List.map_map]
    apply congrArg
    apply List.map_congr_left
    intro p hp
    simp only [Function.comp_apply]
    rw [jsGet_obj_of_mem (goodSample_nodup h) hp]
  have hreq : requiredList
      (Js.obj (fs.map (fun p => (p.1, schemaFromChild p.2)))) = .ok [] := by
    unfold requiredList
    have hget : jsGet (Js.obj (fs.map (fun p => (p.1, schemaFromChild p.2))))
        "required" = Js.undefined := by
      apply jsGet_obj_of_not_mem
      intro hmem
      rw [List.map_map] at hmem
      obtain ⟨p, hp, hpk⟩ := List.mem_map.mp hmem
      exact (goodSample_val h hp).1 hpk
    rw [hget]
    rfl
  have haddOk : additionalsOk
      (Js.obj (fs.map (fun p => (p.1, schemaFromChild p.2)))) = true := by
    apply additionalsOk_of_objValues
    intro p hp
    obtain ⟨q, hq, hqe⟩ := List.mem_map.mp hp
    obtain ⟨gs, hgs⟩ := schemaFromChild_isObj q.2
    refine ⟨gs, ?_⟩
    rw [← hqe]
    exact hgs
  unfold test
  rw [if_pos (show truthy (Js.obj fs) = true from rfl)]
  rw [hP, validate.eq_def]
  simp only [hreq]
  rw [checkForRequiredKeysErrors_of_empty]
  simp only [haddOk]
  rw [show ∀ a b, checkForDisallowedProperties a b ([] : List Res) true = [] from
    fun a b => rfl]
  obtain ⟨d, hloop, hsucc⟩ := C5topLoop fs h
    (objKeys (Js.obj (fs.map (fun p => (p.1, schemaFromChild p.2))))) [] []
  rw [hloop]
  simp only []
  have hall : ∀ x ∈ ([] ++ d : List Res), x.success = true := by simpa using hsucc
  have hce : compileErrors ([] ++ d) [] = [] := compileErrors_eq_nil hall rfl
  have hsu := (isSuccessful_compile_iff ([] ++ d) []).2 ⟨hall, rfl⟩
  rw [hce] at hsu
  rw [hce, hsu]

/-- Witness for the amended C5 at a concrete sample containing scalars
(including falsy ones), a two-level nested object and a homogeneous
number array. -/
theorem C5_roundtrip_witness :
    test (schemaFrom (Js.obj [("s", Js.str "x"), ("n", Js.num 0),
        ("b", Js.bool false),
        ("o", Js.obj [("x", Js.str "a"), ("m", Js.num 3),
          ("p", Js.obj [("q", Js.num 1)])]),
        ("a", Js.arr [Js.num 1, Js.num 2])]))
      (Js.obj [("s", Js.str "x"), ("n", Js.num 0), ("b", Js.bool false),
        ("o", Js.obj [("x", Js.str "a"), ("m", Js.num 3),
          ("p", Js.obj [("q", Js.num 1)])]),
        ("a", Js.arr [Js.num 1, Js.num 2])]) = .ok ⟨[], true⟩ :=
  C5_roundtrip [("s", Js.str "x"), ("n", Js.num 0), ("b", Js.bool false),
      ("o", Js.obj [("x", Js.str "a"), ("m", Js.num 3),
        ("p", Js.obj [("q", Js.num 1)])]),
      ("a", Js.arr [Js.num 1, Js.num 2])]
    (by simp +decide [goodSample, goodTop, goodVal, goodFields, homogeneousTypes,
      flatScalarOk, reservedKeys, jsTypeof])



end MikroValid
